import Mathlib

/-!
Verification of the Life-Codex real-time simulation kernel
(`src/core/ECSSetup.ts`, `src/core/LoopManager.ts`, `src/core/WorkerBridge.ts`,
and the chunk-streaming manager).

Shallow embedding conventions:
* JavaScript numbers used as entity ids, component bits and masks are
  modelled as `ℕ`; component values as `Int`.  JS bitwise operators work on
  32-bit integers; all masks and bits that appear in the development are far
  below `2 ^ 31`, where the `ℕ` operations `&&&`, `|||` agree with the JS
  ones.  `mask & ~bit` is modelled as `mask - (mask &&& bit)`, which clears
  exactly the common bits (the subtrahend is a bitwise submask, so the
  subtraction never borrows).
* Typed-array storage conversion is modelled exactly for the integer kinds
  (`Uint32Array` wraps modulo `2 ^ 32`, `Int8Array` wraps into `[-128,128)`);
  `Float32Array` storage is modelled as the identity, which is exact for the
  small integer values exercised here.
* JS `Map`s are modelled as insertion-ordered association lists with the
  `Map.set` semantics (overwrite in place, append if absent).
* Object references (`meta.table` pointing into the archetype map) are
  resolved through the table's mask: the source assigns `meta.table` only to
  `getOrCreateArchetype(meta.mask)`, and the archetype map holds exactly one
  table per mask, so the mask determines the referenced table.  A dangling
  reference is impossible in the source; the embedding makes the
  corresponding fetch an explicit (`unreachable`) error branch.
* Fallible methods return `Except String α`; a JS `throw` is an `error`.
-/

instance exceptDecEq {ε α : Type} [DecidableEq ε] [DecidableEq α] :
    DecidableEq (Except ε α) := fun a b =>
  match a, b with
  | .ok x, .ok y =>
    if h : x = y then isTrue (by rw [h]) else isFalse (by intro hc; cases hc; exact h rfl)
  | .error x, .error y =>
    if h : x = y then isTrue (by rw [h]) else isFalse (by intro hc; cases hc; exact h rfl)
  | .ok _, .error _ => isFalse (by intro hc; cases hc)
  | .error _, .ok _ => isFalse (by intro hc; cases hc)

/-- `isOk` on `Except` (true exactly when the call did not throw). -/
def exceptOk {ε α : Type} : Except ε α → Bool
  | .ok _ => true
  | .error _ => false

inductive ComponentStorageKind where
  | float32
  | int8
  | uint32
deriving DecidableEq, Repr

/-- Conversion applied when a JS number is assigned into a typed-array
column (`column[row] = v`).  Integer kinds wrap as the corresponding typed
arrays do; `float32` is modelled exactly (see the header comment). -/
def storeConv : ComponentStorageKind → Int → Int
  | .float32, v => v
  | .int8, v => (v + 128).emod 256 - 128
  | .uint32, v => v.emod (2 ^ 32)

structure ComponentLayout where
  bit : ℕ
  kind : ComponentStorageKind
  defaultValue : Option Int
deriving DecidableEq, Repr

/-- The `Map<number, ComponentLayout>` built by `getOrCreateArchetype`
(`layoutMap.set(layout.bit, layout)` over the declared layouts): the last
layout declaring a bit wins. -/
def layoutFor (layouts : List ComponentLayout) (bit : ℕ) : Option ComponentLayout :=
  layouts.reverse.find? (fun l => l.bit == bit)

/-- Whether an archetype table with mask `mask` owns a column for `bit`:
the constructor creates a column for every declared layout bit that
intersects the mask. -/
def hasCol (layouts : List ComponentLayout) (mask bit : ℕ) : Bool :=
  (layoutFor layouts bit).isSome && (mask &&& bit != 0)

/-- One dense row of an archetype table: the entity-id cell plus, for every
column bit, the stored value.  The source stores the columns
structure-of-arrays style; rows are the transpose, which `insert` /
`removeAt` manipulate in exact lockstep with the source (the entity cell and
every column cell of a row move together). -/
structure Row where
  ent : ℕ
  val : ℕ → Int

structure ArchetypeTable where
  mask : ℕ
  rows : List Row

namespace ArchetypeTable

/-- `this.length` — the number of live rows. -/
def length (t : ArchetypeTable) : ℕ := t.rows.length

/-- `entityAt(row)` — unchecked read of the entity column. -/
def entityAt (t : ArchetypeTable) (row : ℕ) : ℕ :=
  ((t.rows[row]?).map Row.ent).getD 0

/-- Unchecked read of a column cell (`column[row]`). -/
def colAt (t : ArchetypeTable) (row bit : ℕ) : Int :=
  ((t.rows[row]?).map (fun r => r.val bit)).getD 0

/-- `insert(entityId, values?)`: append a row; every column cell is filled
from `values?.[bit] ?? layout.defaultValue ?? 0`, converted by the column's
storage kind.  Returns the new table and the row index. -/
def insert (layouts : List ComponentLayout) (t : ArchetypeTable)
    (entityId : ℕ) (values : ℕ → Option Int) : ArchetypeTable × ℕ :=
  let newRow : Row :=
    { ent := entityId
      val := fun bit =>
        if hasCol layouts t.mask bit then
          match layoutFor layouts bit with
          | some l => storeConv l.kind ((values bit).getD (l.defaultValue.getD 0))
          | none => 0
        else 0 }
  ({ t with rows := t.rows ++ [newRow] }, t.rows.length)

/-- `removeAt(row)`: throw on an out-of-range row; otherwise swap-with-last
(copying the entity cell and every column cell of the last row into `row`),
shrink by one, and return the relocated entity id (or `none` when `row`
was the last row). -/
def removeAt (t : ArchetypeTable) (row : ℕ) :
    Except String (ArchetypeTable × Option ℕ) :=
  if h : row < t.rows.length then
    if row = t.rows.length - 1 then
      .ok ({ t with rows := t.rows.dropLast }, none)
    else
      .ok ({ t with rows :=
              (t.rows.set row (t.rows.get ⟨t.rows.length - 1, by omega⟩)).dropLast },
           some (t.entityAt (t.rows.length - 1)))
  else .error "Index de ligne invalide"

/-- `readComponent(row, componentBit)`: throw when the column is absent. -/
def readComponent (layouts : List ComponentLayout) (t : ArchetypeTable)
    (row bit : ℕ) : Except String Int :=
  if hasCol layouts t.mask bit then .ok (t.colAt row bit)
  else .error "Composant absent de l archetype"

/-- `writeComponent(row, componentBit, value)`: throw when the column is
absent, otherwise assign the converted value into the cell (a typed-array
store outside `[0, length)` is silently dropped, as is `List.set`). -/
def writeComponent (layouts : List ComponentLayout) (t : ArchetypeTable)
    (row bit : ℕ) (value : Int) : Except String ArchetypeTable :=
  match layoutFor layouts bit with
  | some l =>
    if t.mask &&& bit != 0 then
      .ok { t with rows :=
        match t.rows[row]? with
        | some r =>
          t.rows.set row
            { r with val := fun b => if b = bit then storeConv l.kind value else r.val b }
        | none => t.rows }
    else .error "Composant absent de l archetype"
  | none => .error "Composant absent de l archetype"

/-- `hasComponent(componentBit)` — column-map membership. -/
def hasComponent (layouts : List ComponentLayout) (t : ArchetypeTable) (bit : ℕ) : Bool :=
  hasCol layouts t.mask bit

/-- `compatibleWith(requiredMask)` — bitwise superset test. -/
def compatibleWith (t : ArchetypeTable) (requiredMask : ℕ) : Bool :=
  t.mask &&& requiredMask == requiredMask

end ArchetypeTable

/-- The value-resolution loop of `migrateEntity`: for every declared layout
whose bit is in the target mask, resolve override > existing column value >
layout default (last declared layout for a bit wins, as in the source's
iteration over `this.layouts`). -/
def migrateValues (layouts : List ComponentLayout) (fromTable : ArchetypeTable)
    (metaRow nextMask : ℕ) (overrides : ℕ → Option Int) : ℕ → Option Int :=
  layouts.foldl
    (fun acc l =>
      if nextMask &&& l.bit != 0 then
        let v : Int :=
          match overrides l.bit with
          | some o => o
          | none =>
            if fromTable.hasComponent layouts l.bit then fromTable.colAt metaRow l.bit
            else l.defaultValue.getD 0
        fun b => if b = l.bit then some v else acc b
      else acc)
    (fun _ => none)

structure EntityMeta where
  mask : ℕ
  row : ℕ
  active : Bool
deriving DecidableEq, Repr

structure World where
  layouts : List ComponentLayout
  nextEntityId : ℕ
  archetypes : List ArchetypeTable
  metadata : List (ℕ × EntityMeta)

namespace World

def create (layouts : List ComponentLayout) : World :=
  { layouts := layouts, nextEntityId := 1, archetypes := [], metadata := [] }

def lookupMeta (w : World) (entityId : ℕ) : Option EntityMeta :=
  (w.metadata.find? (fun p => p.1 == entityId)).map (·.2)

def findTable (w : World) (mask : ℕ) : Option ArchetypeTable :=
  w.archetypes.find? (fun t => t.mask == mask)

/-- `metadata.set(id, meta)` / in-place mutation of an existing record. -/
def setMetaEntry (md : List (ℕ × EntityMeta)) (entityId : ℕ) (m : EntityMeta) :
    List (ℕ × EntityMeta) :=
  if md.any (fun p => p.1 == entityId) then
    md.map (fun p => if p.1 == entityId then (entityId, m) else p)
  else md ++ [(entityId, m)]

def setMeta (w : World) (entityId : ℕ) (m : EntityMeta) : World :=
  { w with metadata := setMetaEntry w.metadata entityId m }

/-- Write back a mutated table into the archetype map (the source mutates
the table object in place; the map entry for its mask is that object). -/
def updateTable (w : World) (mask : ℕ) (t' : ArchetypeTable) : World :=
  { w with archetypes := w.archetypes.map (fun t => if t.mask == mask then t' else t) }

/-- `getOrCreateArchetype(mask)`: reuse the mapped table or append a fresh
empty one. -/
def getOrCreateArchetype (w : World) (mask : ℕ) : World :=
  if (w.findTable mask).isSome then w
  else { w with archetypes := w.archetypes ++ [{ mask := mask, rows := [] }] }

/-- The table `getOrCreateArchetype` just guaranteed to exist. -/
def tableFor (w : World) (mask : ℕ) : ArchetypeTable :=
  (w.findTable mask).getD { mask := mask, rows := [] }

def mustGetMeta (w : World) (entityId : ℕ) : Except String EntityMeta :=
  match w.lookupMeta entityId with
  | some m => .ok m
  | none => .error "Entite introuvable dans le monde"

/-- Dereference `meta.table` (see the header comment: the mask determines
the table; the `error` branch is unreachable through the public API). -/
def metaTable (w : World) (m : EntityMeta) : Except String ArchetypeTable :=
  match w.findTable m.mask with
  | some t => .ok t
  | none => .error "reference de table invalide"

def createEntity (w : World) (mask : ℕ) (values : ℕ → Option Int) : World × ℕ :=
  let entityId := w.nextEntityId
  let w1 := w.getOrCreateArchetype mask
  let ins := (w1.tableFor mask).insert w.layouts entityId values
  let w2 := (w1.updateTable mask ins.1).setMeta entityId
    { mask := mask, row := ins.2, active := true }
  ({ w2 with nextEntityId := entityId + 1 }, entityId)

def migrateEntity (w : World) (entityId nextMask : ℕ)
    (overrides : ℕ → Option Int) : Except String World := do
  let meta ← w.mustGetMeta entityId
  let fromTable ← w.metaTable meta
  let nextValues : ℕ → Option Int :=
    migrateValues w.layouts fromTable meta.row nextMask overrides
  let w1 := w.getOrCreateArchetype nextMask
  let ins := (w1.tableFor nextMask).insert w.layouts entityId nextValues
  let w2 := w1.updateTable nextMask ins.1
  let fromT2 ← w2.metaTable meta
  let rem ← fromT2.removeAt meta.row
  let w3 := w2.updateTable meta.mask rem.1
  let w4 ← match rem.2 with
    | some movedEntity => do
      let movedMeta ← w3.mustGetMeta movedEntity
      pure (w3.setMeta movedEntity { movedMeta with row := meta.row })
    | none => pure w3
  pure (w4.setMeta entityId { mask := nextMask, row := ins.2, active := meta.active })

/-- `addComponent(entityId, componentBit, value = 0)`.  A call that omits
`value` is a call with `value = 0` (default parameter). -/
def addComponent (w : World) (entityId bit : ℕ) (value : Int) : Except String World := do
  let meta ← w.mustGetMeta entityId
  if meta.mask &&& bit != 0 then
    let t ← w.metaTable meta
    let t' ← t.writeComponent w.layouts meta.row bit value
    pure (w.updateTable meta.mask t')
  else
    w.migrateEntity entityId (meta.mask ||| bit) (fun b => if b = bit then some value else none)

def removeComponent (w : World) (entityId bit : ℕ) : Except String World := do
  let meta ← w.mustGetMeta entityId
  if meta.mask &&& bit = 0 then
    pure w
  else
    w.migrateEntity entityId (meta.mask - (meta.mask &&& bit)) (fun _ => none)

def setComponent (w : World) (entityId bit : ℕ) (value : Int) : Except String World := do
  let meta ← w.mustGetMeta entityId
  let t ← w.metaTable meta
  let t' ← t.writeComponent w.layouts meta.row bit value
  pure (w.updateTable meta.mask t')

def getComponent (w : World) (entityId bit : ℕ) : Except String Int := do
  let meta ← w.mustGetMeta entityId
  let t ← w.metaTable meta
  t.readComponent w.layouts meta.row bit

def isActive (w : World) (entityId : ℕ) : Bool :=
  ((w.lookupMeta entityId).map (·.active)).getD false

def deactivate (w : World) (entityId : ℕ) : Except String World := do
  let meta ← w.mustGetMeta entityId
  pure (w.setMeta entityId { meta with active := false })

/-- The id sequence produced by `Query.entities()`: every archetype in map
insertion order, skipping incompatible masks, then every row in ascending
order, yielding the entity id only when its active flag is set. -/
def queryEntities (w : World) (requiredMask : ℕ) : List ℕ :=
  (w.archetypes.filter (fun t => t.compatibleWith requiredMask)).flatMap
    (fun t => (t.rows.map Row.ent).filter (fun e => w.isActive e))

end World

structure Query where
  world : World
  requiredMask : ℕ

def World.createQuery (w : World) (requiredMask : ℕ) : Query :=
  { world := w, requiredMask := requiredMask }

def Query.entities (q : Query) : List ℕ :=
  q.world.queryEntities q.requiredMask

/-- The public mutating `World` operations. -/
inductive WorldOp where
  | create (mask : ℕ) (values : ℕ → Option Int)
  | add (entityId bit : ℕ) (value : Int)
  | remove (entityId bit : ℕ)
  | setComp (entityId bit : ℕ) (value : Int)
  | deact (entityId : ℕ)

def applyOp (w : World) : WorldOp → Except String World
  | .create mask values => .ok (w.createEntity mask values).1
  | .add entityId bit v => w.addComponent entityId bit v
  | .remove entityId bit => w.removeComponent entityId bit
  | .setComp entityId bit v => w.setComponent entityId bit v
  | .deact entityId => w.deactivate entityId

/-- Run one operation; a throwing call leaves the world unchanged (in the
source every reachable throw happens before any mutation). -/
def stepOp (w : World) (op : WorldOp) : World :=
  match applyOp w op with
  | .ok w' => w'
  | .error _ => w

def runOps (w : World) (ops : List WorldOp) : World := ops.foldl stepOp w

/-! ## Well-formedness of a world

The invariant relating the metadata map and the archetype tables. -/

/-- The metadata record is backed by its table: the table for its mask
exists, the row is in range, and the entity column at that row holds the
id (`meta.table.entityAt(meta.row) == id`). -/
def metaEntryOK (w : World) (p : ℕ × EntityMeta) : Prop :=
  ∃ t, w.findTable p.2.mask = some t ∧ p.2.row < t.rows.length ∧
    t.entityAt p.2.row = p.1

instance (w : World) (p : ℕ × EntityMeta) : Decidable (metaEntryOK w p) :=
  match h : w.findTable p.2.mask with
  | some t =>
    decidable_of_iff (p.2.row < t.rows.length ∧ t.entityAt p.2.row = p.1)
      (by
        constructor
        · intro hh; exact ⟨t, h, hh⟩
        · rintro ⟨t', ht', hh⟩
          rw [h] at ht'
          cases ht'
          exact hh)
  | none =>
    isFalse (by rintro ⟨t', ht', _⟩; rw [h] at ht'; cases ht')

/-- Every in-range row of the table has a metadata record pointing exactly
back at it. -/
def rowOK (w : World) (t : ArchetypeTable) : Prop :=
  ∀ r < t.rows.length, ∃ b : Bool,
    w.lookupMeta (t.entityAt r) = some { mask := t.mask, row := r, active := b }

instance (w : World) (t : ArchetypeTable) : Decidable (rowOK w t) := by
  unfold rowOK
  infer_instance

/-- Well-formed world: unique archetype masks, unique metadata keys, ids
below the id counter, and the meta/row back-pointer invariants. -/
def WF (w : World) : Prop :=
  (w.archetypes.map (fun t => t.mask)).Nodup ∧
  (w.metadata.map (fun p => p.1)).Nodup ∧
  (∀ p ∈ w.metadata, p.1 < w.nextEntityId) ∧
  (∀ p ∈ w.metadata, metaEntryOK w p) ∧
  (∀ t ∈ w.archetypes, rowOK w t)

instance (w : World) : Decidable (WF w) := by
  unfold WF
  infer_instance

/-! ## Association-list and map lemmas -/

section MapLemmas

open World

theorem find?_key {md : List (ℕ × EntityMeta)} {entityId : ℕ} {q : ℕ × EntityMeta}
    (h : md.find? (fun p => p.1 == entityId) = some q) : q.1 = entityId := by
  have := List.find?_some h
  simpa using this

theorem lookupMeta_eq_some {w : World} {entityId : ℕ} {m : EntityMeta}
    (h : w.lookupMeta entityId = some m) :
    w.metadata.find? (fun p => p.1 == entityId) = some (entityId, m) := by
  unfold World.lookupMeta at h
  obtain ⟨q, hq, hqm⟩ := Option.map_eq_some'.mp h
  have hk := find?_key hq
  obtain ⟨q1, q2⟩ := q
  simp only at hk hqm
  rw [hk, hqm] at hq
  exact hq

theorem mem_of_lookupMeta {w : World} {entityId : ℕ} {m : EntityMeta}
    (h : w.lookupMeta entityId = some m) : (entityId, m) ∈ w.metadata :=
  List.mem_of_find?_eq_some (lookupMeta_eq_some h)

theorem find?_of_mem_nodupKeys {md : List (ℕ × EntityMeta)}
    (hnd : (md.map (fun p => p.1)).Nodup) {p : ℕ × EntityMeta} (hp : p ∈ md) :
    md.find? (fun q => q.1 == p.1) = some p := by
  induction md with
  | nil => cases hp
  | cons q md ih =>
    simp only [List.map_cons, List.nodup_cons, List.mem_map] at hnd
    rcases List.mem_cons.mp hp with h | h
    · subst h
      simp [List.find?_cons]
    · have hne : q.1 ≠ p.1 := by
        intro he
        exact hnd.1 ⟨p, h, he.symm⟩
      rw [List.find?_cons]
      have hb : (q.1 == p.1) = false := by simp [hne]
      simp only [hb]
      exact ih hnd.2 h

theorem lookupMeta_of_mem {w : World} (hnd : (w.metadata.map (fun p => p.1)).Nodup)
    {p : ℕ × EntityMeta} (hp : p ∈ w.metadata) : w.lookupMeta p.1 = some p.2 := by
  unfold World.lookupMeta
  rw [find?_of_mem_nodupKeys hnd hp]
  rfl

theorem find?_map_replace_self {md : List (ℕ × EntityMeta)} {entityId : ℕ} (m : EntityMeta)
    (hmem : md.any (fun p => p.1 == entityId) = true) :
    (md.map (fun p => if p.1 == entityId then (entityId, m) else p)).find?
      (fun p => p.1 == entityId) = some (entityId, m) := by
  induction md with
  | nil => simp at hmem
  | cons a md ih =>
    by_cases ha : a.1 = entityId
    · simp [List.find?_cons, ha]
    · have ha' : (a.1 == entityId) = false := by simp [ha]
      simp only [List.map_cons, ha', if_false, List.find?_cons, Bool.false_eq_true]
      simp only [List.any_cons, ha', Bool.false_or] at hmem
      exact ih hmem

theorem find?_map_replace_ne {md : List (ℕ × EntityMeta)} {entityId entityId' : ℕ}
    (m : EntityMeta) (h : entityId' ≠ entityId) :
    (md.map (fun p => if p.1 == entityId then (entityId, m) else p)).find?
      (fun p => p.1 == entityId') = md.find? (fun p => p.1 == entityId') := by
  induction md with
  | nil => rfl
  | cons a md ih =>
    by_cases ha : a.1 = entityId
    · have h1 : (a.1 == entityId) = true := by simp [ha]
      have h2 : (entityId == entityId') = false := by simp [Ne.symm h]
      have h3 : (a.1 == entityId') = false := by simp [ha, Ne.symm h]
      simp only [List.map_cons, h1, if_true, List.find?_cons, h2, h3]
      exact ih
    · have h1 : (a.1 == entityId) = false := by simp [ha]
      simp only [List.map_cons, h1, Bool.false_eq_true, if_false, List.find?_cons]
      cases hb : (a.1 == entityId') <;> simp only [hb]
      exact ih

theorem find?_setMetaEntry_self (md : List (ℕ × EntityMeta)) (entityId : ℕ) (m : EntityMeta) :
    (setMetaEntry md entityId m).find? (fun p => p.1 == entityId) = some (entityId, m) := by
  unfold World.setMetaEntry
  split
  · exact find?_map_replace_self m (by assumption)
  · rw [List.find?_append]
    have hnone : md.find? (fun p => p.1 == entityId) = none := by
      rw [List.find?_eq_none]
      intro x hx hxk
      rename_i hne
      exact hne (List.any_eq_true.mpr ⟨x, hx, hxk⟩)
    simp [hnone, List.find?_cons]

theorem find?_setMetaEntry_ne (md : List (ℕ × EntityMeta)) {entityId entityId' : ℕ}
    (m : EntityMeta) (h : entityId' ≠ entityId) :
    (setMetaEntry md entityId m).find? (fun p => p.1 == entityId') =
      md.find? (fun p => p.1 == entityId') := by
  unfold World.setMetaEntry
  split
  · exact find?_map_replace_ne m h
  · rw [List.find?_append]
    have h1 : (entityId == entityId') = false := by simp [Ne.symm h]
    cases hfind : md.find? (fun p => p.1 == entityId') <;>
      simp [List.find?_cons, h1]

theorem lookupMeta_setMeta_self (w : World) (entityId : ℕ) (m : EntityMeta) :
    (w.setMeta entityId m).lookupMeta entityId = some m := by
  unfold World.lookupMeta World.setMeta
  simp [find?_setMetaEntry_self]

theorem lookupMeta_setMeta_ne (w : World) {entityId entityId' : ℕ} (m : EntityMeta)
    (h : entityId' ≠ entityId) :
    (w.setMeta entityId m).lookupMeta entityId' = w.lookupMeta entityId' := by
  unfold World.lookupMeta World.setMeta
  simp [find?_setMetaEntry_ne _ _ h]

theorem keys_setMetaEntry_of_mem {md : List (ℕ × EntityMeta)} {entityId : ℕ}
    (m : EntityMeta) (h : md.any (fun p => p.1 == entityId) = true) :
    (setMetaEntry md entityId m).map (fun p => p.1) = md.map (fun p => p.1) := by
  unfold World.setMetaEntry
  rw [if_pos h, List.map_map]
  apply List.map_congr_left
  intro p _
  by_cases hp : p.1 = entityId
  · simp [hp]
  · simp [hp]

theorem keys_setMetaEntry_of_not_mem {md : List (ℕ × EntityMeta)} {entityId : ℕ}
    (m : EntityMeta) (h : ¬ md.any (fun p => p.1 == entityId) = true) :
    (setMetaEntry md entityId m).map (fun p => p.1) = md.map (fun p => p.1) ++ [entityId] := by
  unfold World.setMetaEntry
  rw [if_neg h]
  simp

theorem mem_setMetaEntry {md : List (ℕ × EntityMeta)} {entityId : ℕ} {m : EntityMeta}
    {p : ℕ × EntityMeta} (h : p ∈ setMetaEntry md entityId m) :
    p = (entityId, m) ∨ (p ∈ md ∧ p.1 ≠ entityId) := by
  unfold World.setMetaEntry at h
  by_cases hmem : md.any (fun p => p.1 == entityId) = true
  · rw [if_pos hmem] at h
    obtain ⟨q, hq, hqe⟩ := List.mem_map.mp h
    by_cases hk : q.1 = entityId
    · left
      rw [← hqe]
      simp [hk]
    · right
      have hb : (q.1 == entityId) = false := by simp [hk]
      rw [← hqe]
      simp only [hb, if_false, Bool.false_eq_true]
      simpa [hk] using hq
  · rw [if_neg hmem] at h
    rcases List.mem_append.mp h with h | h
    · right
      refine ⟨h, ?_⟩
      intro hk
      exact hmem (List.any_eq_true.mpr ⟨p, h, by simp [hk]⟩)
    · left
      simpa using h

theorem any_key_of_lookup {w : World} {entityId : ℕ} {m : EntityMeta}
    (h : w.lookupMeta entityId = some m) :
    w.metadata.any (fun p => p.1 == entityId) = true :=
  List.any_eq_true.mpr ⟨(entityId, m), mem_of_lookupMeta h, by simp⟩

end MapLemmas

/-! ## Archetype-map lemmas -/

section TableMapLemmas

open World

theorem findTable_mem {w : World} {mask : ℕ} {t : ArchetypeTable}
    (h : w.findTable mask = some t) : t ∈ w.archetypes ∧ t.mask = mask := by
  refine ⟨List.mem_of_find?_eq_some h, ?_⟩
  have := List.find?_some h
  simpa using this

theorem find?_mask_of_mem {l : List ArchetypeTable}
    (hU : (l.map (fun t => t.mask)).Nodup) {t : ArchetypeTable} (ht : t ∈ l) :
    l.find? (fun tb => tb.mask == t.mask) = some t := by
  induction l with
  | nil => cases ht
  | cons a l ih =>
    simp only [List.map_cons, List.nodup_cons, List.mem_map] at hU
    rcases List.mem_cons.mp ht with h | h
    · subst h
      simp [List.find?_cons]
    · have hne : a.mask ≠ t.mask := by
        intro he
        exact hU.1 ⟨t, h, he.symm⟩
      rw [List.find?_cons]
      have hb : (a.mask == t.mask) = false := by simp [hne]
      simp only [hb]
      exact ih hU.2 h

theorem findTable_of_mem {w : World} (hU : (w.archetypes.map (fun t => t.mask)).Nodup)
    {t : ArchetypeTable} (ht : t ∈ w.archetypes) : w.findTable t.mask = some t :=
  find?_mask_of_mem hU ht

theorem findTable_none_not_mem {w : World} {mask : ℕ} (h : w.findTable mask = none) :
    mask ∉ w.archetypes.map (fun t => t.mask) := by
  intro hmem
  obtain ⟨t, ht, htm⟩ := List.mem_map.mp hmem
  unfold World.findTable at h
  rw [List.find?_eq_none] at h
  exact h t ht (by simp [htm])

theorem find?_map_update_self {l : List ArchetypeTable} {mask : ℕ} {t t' : ArchetypeTable}
    (h : l.find? (fun tb => tb.mask == mask) = some t) (ht' : t'.mask = mask) :
    (l.map (fun tb => if tb.mask == mask then t' else tb)).find?
      (fun tb => tb.mask == mask) = some t' := by
  induction l with
  | nil => simp at h
  | cons a l ih =>
    rw [List.find?_cons] at h
    by_cases ha : a.mask = mask
    · have hb : (a.mask == mask) = true := by simp [ha]
      have hb2 : (t'.mask == mask) = true := by simp [ht']
      simp only [List.map_cons, hb, if_true, List.find?_cons, hb2]
    · have hb : (a.mask == mask) = false := by simp [ha]
      simp only [hb, Bool.false_eq_true] at h
      simp only [List.map_cons, hb, Bool.false_eq_true, if_false, List.find?_cons]
      exact ih h

theorem findTable_updateTable_self {w : World} {mask : ℕ} {t t' : ArchetypeTable}
    (h : w.findTable mask = some t) (ht' : t'.mask = mask) :
    (w.updateTable mask t').findTable mask = some t' :=
  find?_map_update_self h ht'

theorem find?_map_update_ne {l : List ArchetypeTable} {mask mask' : ℕ} {t' : ArchetypeTable}
    (h : mask' ≠ mask) (ht' : t'.mask = mask) :
    (l.map (fun tb => if tb.mask == mask then t' else tb)).find?
      (fun tb => tb.mask == mask') = l.find? (fun tb => tb.mask == mask') := by
  induction l with
  | nil => rfl
  | cons a l ih =>
    by_cases ha : a.mask = mask
    · have hb : (a.mask == mask) = true := by simp [ha]
      have h1 : (t'.mask == mask') = false := by simp [ht', Ne.symm h]
      have h2 : (a.mask == mask') = false := by simp [ha, Ne.symm h]
      simp only [List.map_cons, hb, if_true, List.find?_cons, h1, h2]
      exact ih
    · have hb : (a.mask == mask) = false := by simp [ha]
      simp only [List.map_cons, hb, Bool.false_eq_true, if_false, List.find?_cons]
      cases hc : (a.mask == mask') <;> simp only [hc]
      exact ih

theorem findTable_updateTable_ne {w : World} {mask mask' : ℕ} {t' : ArchetypeTable}
    (h : mask' ≠ mask) (ht' : t'.mask = mask) :
    (w.updateTable mask t').findTable mask' = w.findTable mask' :=
  find?_map_update_ne h ht'

theorem masks_updateTable (w : World) {mask : ℕ} {t' : ArchetypeTable} (ht' : t'.mask = mask) :
    (w.updateTable mask t').archetypes.map (fun t => t.mask) =
      w.archetypes.map (fun t => t.mask) := by
  unfold World.updateTable
  rw [List.map_map]
  apply List.map_congr_left
  intro t _
  by_cases h : t.mask = mask
  · simp [h, ht']
  · simp [h]

theorem mem_updateTable {w : World} {mask : ℕ} {t' tb : ArchetypeTable}
    (h : tb ∈ (w.updateTable mask t').archetypes) :
    tb = t' ∨ (tb ∈ w.archetypes ∧ tb.mask ≠ mask) := by
  unfold World.updateTable at h
  obtain ⟨q, hq, hqe⟩ := List.mem_map.mp h
  by_cases hk : q.mask = mask
  · left
    rw [← hqe]
    simp [hk]
  · right
    have hb : (q.mask == mask) = false := by simp [hk]
    rw [← hqe]
    simp only [hb, Bool.false_eq_true, if_false]
    exact ⟨hq, hk⟩

theorem metadata_updateTable (w : World) (mask : ℕ) (t' : ArchetypeTable) :
    (w.updateTable mask t').metadata = w.metadata := rfl

theorem lookupMeta_updateTable (w : World) (mask : ℕ) (t' : ArchetypeTable) (entityId : ℕ) :
    (w.updateTable mask t').lookupMeta entityId = w.lookupMeta entityId := rfl

theorem metadata_getOrCreate (w : World) (mask : ℕ) :
    (w.getOrCreateArchetype mask).metadata = w.metadata := by
  unfold World.getOrCreateArchetype
  split <;> rfl

theorem lookupMeta_getOrCreate (w : World) (mask : ℕ) (entityId : ℕ) :
    (w.getOrCreateArchetype mask).lookupMeta entityId = w.lookupMeta entityId := by
  unfold World.lookupMeta
  rw [metadata_getOrCreate]

theorem layouts_getOrCreate (w : World) (mask : ℕ) :
    (w.getOrCreateArchetype mask).layouts = w.layouts := by
  unfold World.getOrCreateArchetype
  split <;> rfl

theorem nextEntityId_getOrCreate (w : World) (mask : ℕ) :
    (w.getOrCreateArchetype mask).nextEntityId = w.nextEntityId := by
  unfold World.getOrCreateArchetype
  split <;> rfl

theorem findTable_getOrCreate_ne {w : World} {mask mask' : ℕ} (h : mask' ≠ mask) :
    (w.getOrCreateArchetype mask).findTable mask' = w.findTable mask' := by
  unfold World.getOrCreateArchetype
  split
  · rfl
  · unfold World.findTable
    simp only
    rw [List.find?_append]
    have hb : (mask == mask') = false := by simp [Ne.symm h]
    cases hfind : List.find? (fun t => t.mask == mask') w.archetypes <;>
      simp [List.find?_cons, hb]

theorem findTable_getOrCreate_self (w : World) (mask : ℕ) :
    ∃ t, (w.getOrCreateArchetype mask).findTable mask = some t ∧ t.mask = mask ∧
      ((w.findTable mask = some t) ∨
        (w.findTable mask = none ∧ t = { mask := mask, rows := [] })) := by
  unfold World.getOrCreateArchetype
  cases hfind : w.findTable mask with
  | some t =>
    refine ⟨t, ?_, (findTable_mem hfind).2, Or.inl rfl⟩
    simp [hfind]
  | none =>
    refine ⟨{ mask := mask, rows := [] }, ?_, rfl, Or.inr ⟨rfl, rfl⟩⟩
    simp only [hfind, Option.isSome_none, Bool.false_eq_true, if_false]
    unfold World.findTable at *
    simp only
    rw [List.find?_append, hfind]
    simp [List.find?_cons]

theorem masks_getOrCreate (w : World) (mask : ℕ) :
    ((w.getOrCreateArchetype mask).archetypes.map (fun t => t.mask) =
        w.archetypes.map (fun t => t.mask)) ∨
      ((w.getOrCreateArchetype mask).archetypes.map (fun t => t.mask) =
          w.archetypes.map (fun t => t.mask) ++ [mask] ∧ w.findTable mask = none) := by
  unfold World.getOrCreateArchetype
  cases hfind : w.findTable mask with
  | some t => left; simp [hfind]
  | none =>
    right
    refine ⟨?_, rfl⟩
    simp [hfind]

theorem mem_getOrCreate {w : World} {mask : ℕ} {tb : ArchetypeTable}
    (h : tb ∈ (w.getOrCreateArchetype mask).archetypes) :
    tb ∈ w.archetypes ∨ tb = { mask := mask, rows := [] } := by
  unfold World.getOrCreateArchetype at h
  by_cases hfind : (w.findTable mask).isSome
  · rw [if_pos hfind] at h
    exact Or.inl h
  · rw [if_neg hfind] at h
    rcases List.mem_append.mp h with h | h
    · exact Or.inl h
    · right; simpa using h

end TableMapLemmas

/-! ## Except-monad reduction lemmas -/

@[simp] theorem bindE_ok {α β : Type} (x : α) (f : α → Except String β) :
    (Except.ok x >>= f) = f x := rfl

@[simp] theorem bindE_err {α β : Type} (e : String) (f : α → Except String β) :
    ((Except.error e : Except String α) >>= f) = Except.error e := rfl

@[simp] theorem pureE {α : Type} (x : α) : (pure x : Except String α) = Except.ok x := rfl

/-! ## Archetype-table row lemmas -/

namespace ArchetypeTable

theorem mask_insert (layouts : List ComponentLayout) (t : ArchetypeTable) (e : ℕ)
    (values : ℕ → Option Int) : ((t.insert layouts e values).1).mask = t.mask := rfl

theorem snd_insert (layouts : List ComponentLayout) (t : ArchetypeTable) (e : ℕ)
    (values : ℕ → Option Int) : (t.insert layouts e values).2 = t.rows.length := rfl

theorem length_insert (layouts : List ComponentLayout) (t : ArchetypeTable) (e : ℕ)
    (values : ℕ → Option Int) :
    ((t.insert layouts e values).1).rows.length = t.rows.length + 1 := by
  simp [insert]

theorem ents_insert (layouts : List ComponentLayout) (t : ArchetypeTable) (e : ℕ)
    (values : ℕ → Option Int) :
    ((t.insert layouts e values).1).rows.map Row.ent = t.rows.map Row.ent ++ [e] := by
  simp [insert]

theorem entityAt_insert_lt (layouts : List ComponentLayout) (t : ArchetypeTable) (e : ℕ)
    (values : ℕ → Option Int) {r : ℕ} (h : r < t.rows.length) :
    ((t.insert layouts e values).1).entityAt r = t.entityAt r := by
  unfold entityAt insert
  simp only [List.getElem?_append, if_pos h]

theorem entityAt_insert_self (layouts : List ComponentLayout) (t : ArchetypeTable) (e : ℕ)
    (values : ℕ → Option Int) :
    ((t.insert layouts e values).1).entityAt t.rows.length = e := by
  unfold entityAt insert
  simp

theorem removeAt_err {t : ArchetypeTable} {row : ℕ} (h : ¬ row < t.rows.length) :
    t.removeAt row = .error "Index de ligne invalide" := by
  unfold removeAt
  rw [dif_neg h]

/-- Full characterization of a successful `removeAt`. -/
theorem removeAt_spec {t : ArchetypeTable} {row : ℕ} (h : row < t.rows.length) :
    ∃ t', t.removeAt row =
        .ok (t', if row = t.rows.length - 1 then none
                 else some (t.entityAt (t.rows.length - 1))) ∧
      t'.mask = t.mask ∧
      t'.rows.length = t.rows.length - 1 ∧
      (∀ r, r < t.rows.length - 1 →
        t'.entityAt r = if r = row then t.entityAt (t.rows.length - 1) else t.entityAt r) ∧
      (∀ r bit, r < t.rows.length - 1 →
        t'.colAt r bit = if r = row then t.colAt (t.rows.length - 1) bit else t.colAt r bit) := by
  unfold removeAt
  rw [dif_pos h]
  by_cases hlast : row = t.rows.length - 1
  · rw [if_pos hlast]
    refine ⟨{ t with rows := t.rows.dropLast }, by rw [if_pos hlast], rfl, by simp, ?_, ?_⟩
    · intro r hr
      have hne : r ≠ row := by omega
      unfold entityAt
      simp only [List.getElem?_dropLast, if_pos hr, if_neg hne]
    · intro r bit hr
      have hne : r ≠ row := by omega
      unfold colAt
      simp only [List.getElem?_dropLast, if_pos hr, if_neg hne]
  · rw [if_neg hlast]
    have hget : t.rows[t.rows.length - 1]? = some (t.rows.get ⟨t.rows.length - 1, by omega⟩) := by
      rw [List.get_eq_getElem]
      exact List.getElem?_eq_getElem (by omega)
    refine ⟨{ t with rows :=
        (t.rows.set row (t.rows.get ⟨t.rows.length - 1, by omega⟩)).dropLast },
      by rw [if_neg hlast], rfl, by simp, ?_, ?_⟩
    · intro r hr
      unfold entityAt
      simp only [List.getElem?_dropLast, List.length_set, if_pos hr]
      by_cases hrr : r = row
      · subst hrr
        rw [if_pos rfl, List.getElem?_set_self (by omega), hget]
      · rw [if_neg hrr, List.getElem?_set_ne (by omega)]
    · intro r bit hr
      unfold colAt
      simp only [List.getElem?_dropLast, List.length_set, if_pos hr]
      by_cases hrr : r = row
      · subst hrr
        rw [if_pos rfl, List.getElem?_set_self (by omega), hget]
      · rw [if_neg hrr, List.getElem?_set_ne (by omega)]

theorem readComponent_ok {layouts : List ComponentLayout} {t : ArchetypeTable}
    {row bit : ℕ} (h : hasCol layouts t.mask bit = true) :
    t.readComponent layouts row bit = .ok (t.colAt row bit) := by
  unfold readComponent
  rw [if_pos h]

theorem readComponent_err {layouts : List ComponentLayout} {t : ArchetypeTable}
    {row bit : ℕ} (h : ¬ hasCol layouts t.mask bit = true) :
    t.readComponent layouts row bit = .error "Composant absent de l archetype" := by
  unfold readComponent
  rw [if_neg h]

theorem writeComponent_err {layouts : List ComponentLayout} {t : ArchetypeTable}
    {row bit : ℕ} {v : Int} (h : ¬ hasCol layouts t.mask bit = true) :
    t.writeComponent layouts row bit v = .error "Composant absent de l archetype" := by
  unfold writeComponent hasCol at *
  cases hl : layoutFor layouts bit with
  | none => rfl
  | some l =>
    rw [hl] at h
    simp only [Option.isSome_some, Bool.true_and] at h
    simp only []
    rw [if_neg h]

/-- Full characterization of a successful `writeComponent`. -/
theorem writeComponent_spec {layouts : List ComponentLayout} {t : ArchetypeTable}
    {row bit : ℕ} {v : Int} {l : ComponentLayout}
    (hl : layoutFor layouts bit = some l) (hm : (t.mask &&& bit != 0) = true) :
    ∃ t', t.writeComponent layouts row bit v = .ok t' ∧
      t'.mask = t.mask ∧
      t'.rows.length = t.rows.length ∧
      t'.rows.map Row.ent = t.rows.map Row.ent ∧
      (∀ r, t'.entityAt r = t.entityAt r) ∧
      (∀ r b, r ≠ row ∨ b ≠ bit → t'.colAt r b = t.colAt r b) ∧
      (row < t.rows.length → t'.colAt row bit = storeConv l.kind v) := by
  unfold writeComponent
  rw [hl]
  simp only [hm, if_true]
  cases hrow : t.rows[row]? with
  | none =>
    have hge : t.rows.length ≤ row := by
      by_contra hc
      rw [List.getElem?_eq_getElem (by omega)] at hrow
      cases hrow
    refine ⟨_, rfl, rfl, rfl, rfl, fun r => rfl, fun r b _ => rfl, ?_⟩
    intro hlt
    omega
  | some r0 =>
    have hlt : row < t.rows.length := by
      rcases List.getElem?_eq_some_iff.mp hrow with ⟨hh, _⟩
      exact hh
    refine ⟨_, rfl, rfl, by simp, ?_, ?_, ?_, ?_⟩
    · apply List.ext_getElem?
      intro n
      rw [List.map_set]
      by_cases hn : n = row
      · subst hn
        rw [List.getElem?_set_self (by simpa using hlt), List.getElem?_map, hrow]
        rfl
      · rw [List.getElem?_set_ne (by omega)]
    · intro r
      unfold entityAt
      by_cases hrr : r = row
      · subst hrr
        rw [List.getElem?_set_self (by omega), hrow]
        rfl
      · rw [List.getElem?_set_ne (by omega)]
    · intro r b hne
      unfold colAt
      by_cases hrr : r = row
      · subst hrr
        rw [List.getElem?_set_self (by omega), hrow]
        rcases hne with hne | hne
        · exact absurd rfl hne
        · simp [hne]
      · rw [List.getElem?_set_ne (by omega)]
    · intro _
      unfold colAt
      rw [List.getElem?_set_self (by omega)]
      simp

/-- General list fact behind swap-remove: overwriting position `row` with
the last element and dropping the last slot permutes to erasing position
`row`. -/
theorem set_last_dropLast_perm_eraseIdx {α : Type _} {E : List α} {row : ℕ} {z : α}
    (hrow : row + 1 < E.length) (hz : E[E.length - 1]? = some z) :
    ((E.set row z).dropLast).Perm (E.eraseIdx row) := by
  have hset : E.set row z = E.take row ++ z :: E.drop (row + 1) := by
    rw [List.set_eq_take_append_cons_drop, if_pos (by omega)]
  have hdrop_ne : E.drop (row + 1) ≠ [] := by
    rw [ne_eq, List.drop_eq_nil_iff]
    omega
  have hlast : (E.drop (row + 1)).getLast hdrop_ne = z := by
    have hni : (E.drop (row + 1)).length - 1 < (E.drop (row + 1)).length := by
      rw [List.length_drop]
      omega
    have e1 : (E.drop (row + 1))[(E.drop (row + 1)).length - 1]? =
        some ((E.drop (row + 1)).getLast hdrop_ne) := by
      rw [List.getLast_eq_getElem]
      exact List.getElem?_eq_getElem hni
    have e2 : (E.drop (row + 1))[(E.drop (row + 1)).length - 1]? = E[E.length - 1]? := by
      rw [List.getElem?_drop]
      congr 1
      rw [List.length_drop]
      omega
    rw [e2, hz] at e1
    exact (Option.some_injective _ e1).symm
  have hD : E.drop (row + 1) = (E.drop (row + 1)).dropLast ++ [z] := by
    conv_lhs => rw [← List.dropLast_append_getLast hdrop_ne]
    rw [hlast]
  rw [hset, List.dropLast_append_of_ne_nil _ (by simp),
    List.dropLast_cons_of_ne_nil hdrop_ne, List.eraseIdx_eq_take_drop_succ]
  refine List.Perm.append_left _ ?_
  conv_rhs => rw [hD]
  exact (List.perm_append_singleton z _).symm

/-- The entity column after a successful swap-remove is a permutation of
the old column with the element at the removed index erased. -/
theorem removeAt_ents_perm {t t' : ArchetypeTable} {row : ℕ} {mov : Option ℕ}
    (hok : t.removeAt row = .ok (t', mov)) :
    (t'.rows.map Row.ent).Perm ((t.rows.map Row.ent).eraseIdx row) := by
  unfold removeAt at hok
  by_cases h : row < t.rows.length
  · rw [dif_pos h] at hok
    by_cases hlast : row = t.rows.length - 1
    · rw [if_pos hlast] at hok
      cases hok
      subst hlast
      rw [List.map_dropLast, List.dropLast_eq_take, List.eraseIdx_eq_take_drop_succ,
        List.drop_eq_nil_of_le (by simp; omega)]
      simp
    · rw [if_neg hlast] at hok
      cases hok
      rw [List.map_dropLast, List.map_set]
      refine set_last_dropLast_perm_eraseIdx (by simp; omega) ?_
      have hlt : t.rows.length - 1 < t.rows.length := by omega
      rw [List.length_map, List.getElem?_map, List.getElem?_eq_getElem hlt]
      simp [List.get_eq_getElem]
  · rw [dif_neg h] at hok
    cases hok

end ArchetypeTable

/-! ## World operation equations -/

section WorldOpEquations

open World

theorem mustGetMeta_ok {w : World} {entityId : ℕ} {m : EntityMeta}
    (h : w.lookupMeta entityId = some m) : w.mustGetMeta entityId = .ok m := by
  unfold World.mustGetMeta
  rw [h]

theorem mustGetMeta_err {w : World} {entityId : ℕ} (h : w.lookupMeta entityId = none) :
    w.mustGetMeta entityId = .error "Entite introuvable dans le monde" := by
  unfold World.mustGetMeta
  rw [h]

theorem metaTable_ok {w : World} {m : EntityMeta} {t : ArchetypeTable}
    (h : w.findTable m.mask = some t) : w.metaTable m = .ok t := by
  unfold World.metaTable
  rw [h]

theorem getComponent_eq {w : World} {entityId bit : ℕ} {m : EntityMeta} {t : ArchetypeTable}
    (hlook : w.lookupMeta entityId = some m) (hft : w.findTable m.mask = some t) :
    w.getComponent entityId bit = t.readComponent w.layouts m.row bit := by
  unfold World.getComponent
  rw [mustGetMeta_ok hlook, bindE_ok, metaTable_ok hft, bindE_ok]

theorem getComponent_err_unknown {w : World} {entityId bit : ℕ}
    (hlook : w.lookupMeta entityId = none) :
    w.getComponent entityId bit = .error "Entite introuvable dans le monde" := by
  unfold World.getComponent
  rw [mustGetMeta_err hlook, bindE_err]

theorem setComponent_eq {w : World} {entityId bit : ℕ} {v : Int} {m : EntityMeta}
    {t : ArchetypeTable} (hlook : w.lookupMeta entityId = some m)
    (hft : w.findTable m.mask = some t) :
    w.setComponent entityId bit v =
      match t.writeComponent w.layouts m.row bit v with
      | .ok t' => .ok (w.updateTable m.mask t')
      | .error e => .error e := by
  unfold World.setComponent
  rw [mustGetMeta_ok hlook, bindE_ok, metaTable_ok hft, bindE_ok]
  cases h : t.writeComponent w.layouts m.row bit v <;> rfl

theorem setComponent_err_unknown {w : World} {entityId bit : ℕ} {v : Int}
    (hlook : w.lookupMeta entityId = none) :
    w.setComponent entityId bit v = .error "Entite introuvable dans le monde" := by
  unfold World.setComponent
  rw [mustGetMeta_err hlook, bindE_err]

theorem deactivate_eq {w : World} {entityId : ℕ} {m : EntityMeta}
    (hlook : w.lookupMeta entityId = some m) :
    w.deactivate entityId = .ok (w.setMeta entityId { m with active := false }) := by
  unfold World.deactivate
  rw [mustGetMeta_ok hlook, bindE_ok, pureE]

theorem deactivate_err_unknown {w : World} {entityId : ℕ}
    (hlook : w.lookupMeta entityId = none) :
    w.deactivate entityId = .error "Entite introuvable dans le monde" := by
  unfold World.deactivate
  rw [mustGetMeta_err hlook, bindE_err]

theorem writeComponent_ok_inv {layouts : List ComponentLayout} {t t' : ArchetypeTable}
    {row bit : ℕ} {v : Int} (h : t.writeComponent layouts row bit v = .ok t') :
    ∃ l, layoutFor layouts bit = some l ∧ (t.mask &&& bit != 0) = true := by
  unfold ArchetypeTable.writeComponent at h
  cases hl : layoutFor layouts bit with
  | none =>
    simp only [hl] at h
    cases h
  | some l =>
    simp only [hl] at h
    by_cases hm : (t.mask &&& bit != 0) = true
    · exact ⟨l, rfl, hm⟩
    · rw [if_neg hm] at h
      cases h

end WorldOpEquations

/-! ## Preservation of well-formedness -/

section WFPreservation

open World

theorem WF_updateTable {w : World} {mask : ℕ} {t t' : ArchetypeTable}
    (hwf : WF w) (hfind : w.findTable mask = some t)
    (hmask : t'.mask = mask) (hlen : t'.rows.length = t.rows.length)
    (hents : ∀ r, r < t.rows.length → t'.entityAt r = t.entityAt r) :
    WF (w.updateTable mask t') := by
  obtain ⟨hM, hK, hF, hE, hR⟩ := hwf
  have htmem := findTable_mem hfind
  refine ⟨?_, hK, hF, ?_, ?_⟩
  · rw [masks_updateTable w hmask]
    exact hM
  · intro p hp
    obtain ⟨tp, hfp, hrow, hent⟩ := hE p hp
    by_cases hmm : p.2.mask = mask
    · rw [hmm] at hfp
      rw [hfp] at hfind
      cases hfind
      refine ⟨t', ?_, ?_, ?_⟩
      · rw [hmm]
        exact findTable_updateTable_self hfp hmask
      · omega
      · rw [hents p.2.row hrow]
        exact hent
    · exact ⟨tp, by rw [findTable_updateTable_ne hmm hmask]; exact hfp, hrow, hent⟩
  · intro tb htb
    rcases mem_updateTable htb with h | ⟨hmem, hne⟩
    · subst h
      intro r hr
      have hr' : r < t.rows.length := by omega
      obtain ⟨b, hb⟩ := hR t htmem.1 r hr'
      refine ⟨b, ?_⟩
      rw [hents r hr']
      rw [lookupMeta_updateTable]
      rw [hmask, ← htmem.2]
      exact hb
    · intro r hr
      obtain ⟨b, hb⟩ := hR tb hmem r hr
      exact ⟨b, by rw [lookupMeta_updateTable]; exact hb⟩

theorem deactivate_WF {w w' : World} {entityId : ℕ} (hwf : WF w)
    (h : w.deactivate entityId = .ok w') : WF w' := by
  cases hlook : w.lookupMeta entityId with
  | none => rw [deactivate_err_unknown hlook] at h; cases h
  | some m =>
    rw [deactivate_eq hlook] at h
    cases h
    obtain ⟨hM, hK, hF, hE, hR⟩ := hwf
    have hany := any_key_of_lookup hlook
    refine ⟨hM, ?_, ?_, ?_, ?_⟩
    · show ((setMetaEntry w.metadata entityId _).map (fun p => p.1)).Nodup
      rw [keys_setMetaEntry_of_mem _ hany]
      exact hK
    · intro p hp
      rcases mem_setMetaEntry hp with h | ⟨hmem, _⟩
      · subst h
        exact hF (entityId, m) (mem_of_lookupMeta hlook)
      · exact hF p hmem
    · intro p hp
      rcases mem_setMetaEntry hp with h | ⟨hmem, _⟩
      · subst h
        obtain ⟨tp, hfp, hrow, hent⟩ := hE (entityId, m) (mem_of_lookupMeta hlook)
        exact ⟨tp, hfp, hrow, hent⟩
      · exact hE p hmem
    · intro tb htb r hr
      obtain ⟨b, hb⟩ := hR tb htb r hr
      by_cases he : tb.entityAt r = entityId
      · refine ⟨false, ?_⟩
        rw [he]
        rw [he] at hb
        rw [hlook] at hb
        cases hb
        show (w.setMeta entityId _).lookupMeta entityId = _
        rw [lookupMeta_setMeta_self]
      · refine ⟨b, ?_⟩
        show (w.setMeta entityId _).lookupMeta (tb.entityAt r) = _
        rw [lookupMeta_setMeta_ne _ _ he]
        exact hb

theorem setComponent_WF {w w' : World} {entityId bit : ℕ} {v : Int} (hwf : WF w)
    (h : w.setComponent entityId bit v = .ok w') : WF w' := by
  cases hlook : w.lookupMeta entityId with
  | none => rw [setComponent_err_unknown hlook] at h; cases h
  | some m =>
    cases hft : w.findTable m.mask with
    | none =>
      obtain ⟨tp, hfp, _, _⟩ := hwf.2.2.2.1 (entityId, m) (mem_of_lookupMeta hlook)
      rw [hfp] at hft
      cases hft
    | some t =>
      rw [setComponent_eq hlook hft] at h
      cases hwc : t.writeComponent w.layouts m.row bit v with
      | error e => rw [hwc] at h; cases h
      | ok t1 =>
        rw [hwc] at h
        cases h
        obtain ⟨l, hl, hm⟩ := writeComponent_ok_inv hwc
        obtain ⟨t2, heq, hmask, hlen, _, hents, _, _⟩ := @ArchetypeTable.writeComponent_spec _ t m.row _ v _ hl hm
        rw [hwc] at heq
        cases heq
        exact WF_updateTable hwf hft (by rw [hmask]; exact (findTable_mem hft).2) hlen
          (fun r _ => hents r)

theorem getOrCreate_eq_self {w : World} {mask : ℕ} (h : (w.findTable mask).isSome) :
    w.getOrCreateArchetype mask = w := by
  unfold World.getOrCreateArchetype
  rw [if_pos h]

theorem WF_getOrCreate {w : World} (mask : ℕ) (hwf : WF w) :
    WF (w.getOrCreateArchetype mask) := by
  by_cases hf : (w.findTable mask).isSome
  · rw [getOrCreate_eq_self hf]
    exact hwf
  · have hnone : w.findTable mask = none := Option.not_isSome_iff_eq_none.mp hf
    obtain ⟨hM, hK, hF, hE, hR⟩ := hwf
    unfold World.getOrCreateArchetype
    rw [if_neg hf]
    refine ⟨?_, hK, hF, ?_, ?_⟩
    · simp only [List.map_append]
      rw [List.nodup_append]
      refine ⟨hM, by simp, ?_⟩
      intro x hx hx2
      simp only [List.map_cons, List.map_nil, List.mem_singleton] at hx2
      subst hx2
      exact findTable_none_not_mem hnone hx
    · intro p hp
      obtain ⟨tp, hfp, hrow, hent⟩ := hE p hp
      refine ⟨tp, ?_, hrow, hent⟩
      show List.find? _ (w.archetypes ++ _) = some tp
      rw [List.find?_append]
      unfold World.findTable at hfp
      rw [hfp]
      rfl
    · intro tb htb
      rcases List.mem_append.mp htb with h | h
      · exact hR tb h
      · simp only [List.mem_singleton] at h
        subst h
        intro r hr
        simp at hr

theorem createEntity_WF {w : World} (mask : ℕ) (values : ℕ → Option Int) (hwf : WF w) :
    WF (w.createEntity mask values).1 := by
  unfold World.createEntity
  simp only []
  obtain ⟨t, hft1, htm, hcase⟩ := findTable_getOrCreate_self w mask
  have hwf1 : WF (w.getOrCreateArchetype mask) := WF_getOrCreate mask hwf
  set w1 := w.getOrCreateArchetype mask with hw1
  obtain ⟨hM1, hK1, hF1, hE1, hR1⟩ := hwf1
  have hmd1 : w1.metadata = w.metadata := metadata_getOrCreate w mask
  have hlk1 : ∀ e, w1.lookupMeta e = w.lookupMeta e := lookupMeta_getOrCreate w mask
  have hnext1 : w1.nextEntityId = w.nextEntityId := nextEntityId_getOrCreate w mask
  have htf : w1.tableFor mask = t := by
    unfold World.tableFor
    rw [hft1]
    rfl
  rw [htf]
  set ins := t.insert w.layouts w.nextEntityId values with hins
  have hinsmask : ins.1.mask = mask := by rw [ArchetypeTable.mask_insert, htm]
  have hinslen : ins.1.rows.length = t.rows.length + 1 := ArchetypeTable.length_insert _ _ _ _
  have hins2 : ins.2 = t.rows.length := rfl
  -- the well-known fresh entity id
  have hfresh : ∀ p ∈ w.metadata, p.1 < w.nextEntityId := hwf.2.2.1
  have hany : ¬ (w1.updateTable mask ins.1).metadata.any
      (fun p => p.1 == w.nextEntityId) = true := by
    rw [metadata_updateTable, hmd1]
    intro hc
    obtain ⟨p, hp, hpk⟩ := List.any_eq_true.mp hc
    have := hfresh p hp
    simp only [beq_iff_eq] at hpk
    omega
  -- facts about the updated world
  have hft2 : (w1.updateTable mask ins.1).findTable mask = some ins.1 :=
    findTable_updateTable_self hft1 hinsmask
  have hftne : ∀ m', m' ≠ mask →
      (w1.updateTable mask ins.1).findTable m' = w.findTable m' := by
    intro m' hm'
    rw [findTable_updateTable_ne hm' hinsmask, hw1, findTable_getOrCreate_ne hm']
  refine ⟨?_, ?_, ?_, ?_, ?_⟩
  · show ((w1.updateTable mask ins.1).archetypes.map (fun tb => tb.mask)).Nodup
    rw [masks_updateTable w1 hinsmask]
    exact hM1
  · show ((setMetaEntry (w1.updateTable mask ins.1).metadata w.nextEntityId _).map
      (fun p => p.1)).Nodup
    rw [keys_setMetaEntry_of_not_mem _ hany, metadata_updateTable, hmd1]
    rw [List.nodup_append]
    refine ⟨hwf.2.1, by simp, ?_⟩
    intro x hx hx2
    simp only [List.mem_singleton] at hx2
    subst hx2
    obtain ⟨p, hp, hpk⟩ := List.mem_map.mp hx
    have := hfresh p hp
    omega
  · intro p hp
    rcases mem_setMetaEntry hp with h | ⟨hmem, _⟩
    · subst h
      simp
    · rw [metadata_updateTable, hmd1] at hmem
      have := hfresh p hmem
      simp only []
      omega
  · intro p hp
    rcases mem_setMetaEntry hp with h | ⟨hmem, hne⟩
    · subst h
      refine ⟨ins.1, hft2, ?_, ?_⟩
      · simp only [hins2, hinslen]
        omega
      · simp only [hins2]
        exact ArchetypeTable.entityAt_insert_self _ _ _ _
    · rw [metadata_updateTable, hmd1] at hmem
      obtain ⟨tp, hfp, hrow, hent⟩ := hwf.2.2.2.1 p hmem
      by_cases hmm : p.2.mask = mask
      · rw [hmm] at hfp
        have htp : tp = t := by
          rcases hcase with hc | ⟨hc, _⟩
          · rw [hfp] at hc; cases hc; rfl
          · rw [hfp] at hc; cases hc
        subst htp
        refine ⟨ins.1, by rw [hmm]; exact hft2, by omega, ?_⟩
        rw [ArchetypeTable.entityAt_insert_lt _ _ _ _ hrow]
        exact hent
      · refine ⟨tp, ?_, hrow, hent⟩
        show (w1.updateTable mask ins.1).findTable p.2.mask = some tp
        rw [hftne p.2.mask hmm]
        exact hfp
  · intro tb htb
    rcases mem_updateTable htb with h | ⟨hmem, hne⟩
    · subst h
      intro r hr
      rw [hinslen] at hr
      by_cases hrt : r < t.rows.length
      · -- an old row of the (possibly new) table for `mask`
        have htmem : t ∈ w1.archetypes := (findTable_mem hft1).1
        obtain ⟨b, hb⟩ := hR1 t htmem r hrt
        refine ⟨b, ?_⟩
        rw [ArchetypeTable.entityAt_insert_lt _ _ _ _ hrt]
        rw [hlk1] at hb
        have hentlt : t.entityAt r < w.nextEntityId := by
          obtain hmem2 := mem_of_lookupMeta hb
          exact hfresh _ hmem2
        show (World.setMeta _ _ _).lookupMeta (t.entityAt r) = _
        rw [lookupMeta_setMeta_ne _ _ (by omega), lookupMeta_updateTable, hlk1]
        rw [hb, hinsmask, htm]
      · have hrr : r = t.rows.length := by omega
        subst hrr
        refine ⟨true, ?_⟩
        rw [ArchetypeTable.entityAt_insert_self _ _ _ _]
        show (World.setMeta _ _ _).lookupMeta w.nextEntityId = _
        rw [lookupMeta_setMeta_self]
        rw [hinsmask, hins2]
    · -- untouched tables
      have htbw : tb ∈ w.archetypes := by
        rcases mem_getOrCreate hmem with h | h
        · exact h
        · exfalso
          apply hne
          rw [h]
      intro r hr
      obtain ⟨b, hb⟩ := hwf.2.2.2.2 tb htbw r hr
      refine ⟨b, ?_⟩
      have hentlt : tb.entityAt r < w.nextEntityId := by
        obtain hmem2 := mem_of_lookupMeta hb
        exact hfresh _ hmem2
      show (World.setMeta _ _ _).lookupMeta (tb.entityAt r) = _
      rw [lookupMeta_setMeta_ne _ _ (by omega), lookupMeta_updateTable, hlk1]
      exact hb

theorem any_key_congr {md1 md2 : List (ℕ × EntityMeta)}
    (h : md1.map (fun p => p.1) = md2.map (fun p => p.1)) (entityId : ℕ) :
    md1.any (fun p => p.1 == entityId) = md2.any (fun p => p.1 == entityId) := by
  induction md1 generalizing md2 with
  | nil =>
    cases md2 with
    | nil => rfl
    | cons b l2 => simp at h
  | cons a l ih =>
    cases md2 with
    | nil => simp at h
    | cons b l2 =>
      simp only [List.map_cons, List.cons.injEq] at h
      simp only [List.any_cons, h.1, ih h.2]

theorem migrateEntity_WF {w w' : World} {entityId nextMask : ℕ} {overrides : ℕ → Option Int}
    {m : EntityMeta} (hwf : WF w) (hlook : w.lookupMeta entityId = some m)
    (hnm : nextMask ≠ m.mask)
    (h : w.migrateEntity entityId nextMask overrides = .ok w') : WF w' := by
  obtain ⟨fromT, hfrom0, hrowm0, hentm0⟩ := hwf.2.2.2.1 (entityId, m) (mem_of_lookupMeta hlook)
  have hfrom : w.findTable m.mask = some fromT := hfrom0
  have hrowm : m.row < fromT.rows.length := hrowm0
  have hentm : fromT.entityAt m.row = entityId := hentm0
  clear hfrom0 hrowm0 hentm0
  have hfromMask : fromT.mask = m.mask := (findTable_mem hfrom).2
  have hfromMem : fromT ∈ w.archetypes := (findTable_mem hfrom).1
  obtain ⟨tto, hft1, htom, hcase⟩ := findTable_getOrCreate_self w nextMask
  have hwf1 : WF (w.getOrCreateArchetype nextMask) := WF_getOrCreate nextMask hwf
  unfold World.migrateEntity at h
  rw [mustGetMeta_ok hlook, bindE_ok, metaTable_ok hfrom, bindE_ok] at h
  simp only [] at h
  set w1 := w.getOrCreateArchetype nextMask with hw1
  have htf : w1.tableFor nextMask = tto := by
    unfold World.tableFor
    rw [hft1]
    rfl
  rw [htf] at h
  set nv := migrateValues w.layouts fromT m.row nextMask overrides with hnv
  set ins := tto.insert w.layouts entityId nv with hins
  set w2 := w1.updateTable nextMask ins.1 with hw2
  have hinsmask : ins.1.mask = nextMask := by
    rw [hins, ArchetypeTable.mask_insert]
    exact htom
  have hinslen : ins.1.rows.length = tto.rows.length + 1 := by
    rw [hins]
    exact ArchetypeTable.length_insert _ _ _ _
  have hins2 : ins.2 = tto.rows.length := by
    rw [hins]
    rfl
  have hinsself : ins.1.entityAt tto.rows.length = entityId := by
    rw [hins]
    exact ArchetypeTable.entityAt_insert_self _ _ _ _
  have hinslt : ∀ r, r < tto.rows.length → ins.1.entityAt r = tto.entityAt r := by
    intro r hr
    rw [hins]
    exact ArchetypeTable.entityAt_insert_lt _ _ _ _ hr
  have hlkw2 : ∀ e, w2.lookupMeta e = w.lookupMeta e := by
    intro e
    rw [hw2, lookupMeta_updateTable, hw1, lookupMeta_getOrCreate]
  have hmdw2 : w2.metadata = w.metadata := by
    rw [hw2, metadata_updateTable, hw1, metadata_getOrCreate]
  have hnextw2 : w2.nextEntityId = w.nextEntityId := by
    rw [hw2]
    show w1.nextEntityId = w.nextEntityId
    rw [hw1, nextEntityId_getOrCreate]
  have hft2to : w2.findTable nextMask = some ins.1 := findTable_updateTable_self hft1 hinsmask
  have hft2ne : ∀ mk, mk ≠ nextMask → w2.findTable mk = w.findTable mk := by
    intro mk hmk
    rw [hw2, findTable_updateTable_ne hmk hinsmask, hw1, findTable_getOrCreate_ne hmk]
  have hft2from : w2.findTable m.mask = some fromT := by
    rw [hft2ne m.mask (Ne.symm hnm)]
    exact hfrom
  rw [metaTable_ok hft2from, bindE_ok] at h
  obtain ⟨ft3, hremeq, hft3mask, hft3len, hft3ent, _⟩ :=
    @ArchetypeTable.removeAt_spec fromT m.row hrowm
  rw [hremeq, bindE_ok] at h
  simp only [] at h
  have hft3m : ft3.mask = m.mask := by rw [hft3mask, hfromMask]
  have hft3from : (w2.updateTable m.mask ft3).findTable m.mask = some ft3 :=
    findTable_updateTable_self hft2from hft3m
  have hft3to : (w2.updateTable m.mask ft3).findTable nextMask = some ins.1 := by
    rw [findTable_updateTable_ne hnm hft3m]
    exact hft2to
  have hft3ne : ∀ mk, mk ≠ m.mask → mk ≠ nextMask →
      (w2.updateTable m.mask ft3).findTable mk = w.findTable mk := by
    intro mk h1 h2
    rw [findTable_updateTable_ne h1 hft3m]
    exact hft2ne mk h2
  have hmd3 : (w2.updateTable m.mask ft3).metadata = w.metadata := by
    rw [metadata_updateTable]
    exact hmdw2
  have hlk3 : ∀ e, (w2.updateTable m.mask ft3).lookupMeta e = w.lookupMeta e := by
    intro e
    rw [lookupMeta_updateTable]
    exact hlkw2 e
  have hmasks3 : ((w2.updateTable m.mask ft3).archetypes.map (fun tb => tb.mask)).Nodup := by
    rw [masks_updateTable _ hft3m, hw2, masks_updateTable _ hinsmask]
    exact hwf1.1
  have hanyE3 : (w2.updateTable m.mask ft3).metadata.any (fun p => p.1 == entityId) = true := by
    rw [hmd3]
    exact any_key_of_lookup hlook
  have hEold := hwf.2.2.2.1
  have hRold := hwf.2.2.2.2
  have hKold := hwf.2.1
  have hFold := hwf.2.2.1
  by_cases hlast : m.row = fromT.rows.length - 1
  · -- the migrated entity occupied the last row: nothing is relocated
    rw [if_pos hlast] at h
    simp only [] at h
    rw [pureE, bindE_ok, pureE] at h
    cases h
    refine ⟨?_, ?_, ?_, ?_, ?_⟩
    · exact hmasks3
    · show ((setMetaEntry (w2.updateTable m.mask ft3).metadata entityId _).map
        (fun p => p.1)).Nodup
      rw [keys_setMetaEntry_of_mem _ hanyE3, hmd3]
      exact hKold
    · intro p hp
      rcases mem_setMetaEntry hp with hpe | ⟨hmem, hne⟩
      · subst hpe
        show entityId < w2.nextEntityId
        rw [hnextw2]
        exact hFold (entityId, m) (mem_of_lookupMeta hlook)
      · rw [hmd3] at hmem
        show p.1 < w2.nextEntityId
        rw [hnextw2]
        exact hFold p hmem
    · intro p hp
      rcases mem_setMetaEntry hp with hpe | ⟨hmem, hne⟩
      · subst hpe
        refine ⟨ins.1, hft3to, ?_, ?_⟩
        · simp only [hins2, hinslen]
          omega
        · simp only [hins2]
          exact hinsself
      · rw [hmd3] at hmem
        obtain ⟨tp, hfp, hrowp, hentp⟩ := hEold p hmem
        by_cases pm1 : p.2.mask = nextMask
        · rcases hcase with hc | ⟨hc, _⟩
          · rw [pm1] at hfp
            rw [hfp] at hc
            cases hc
            refine ⟨ins.1, by rw [pm1]; exact hft3to, by omega, ?_⟩
            rw [hinslt _ hrowp]
            exact hentp
          · rw [pm1] at hfp
            rw [hfp] at hc
            cases hc
        · by_cases pm2 : p.2.mask = m.mask
          · rw [pm2] at hfp
            have htpf : tp = fromT := by
              rw [hfp] at hfrom
              exact Option.some_inj.mp hfrom
            subst htpf
            have hrne : p.2.row ≠ m.row := by
              intro he
              rw [he] at hentp
              rw [hentp] at hentm
              exact hne hentm
            have hrlt : p.2.row < tp.rows.length - 1 := by omega
            refine ⟨ft3, by rw [pm2]; exact hft3from, by omega, ?_⟩
            rw [hft3ent p.2.row hrlt, if_neg hrne]
            exact hentp
          · refine ⟨tp, ?_, hrowp, hentp⟩
            show (w2.updateTable m.mask ft3).findTable p.2.mask = some tp
            rw [hft3ne p.2.mask pm2 pm1]
            exact hfp
    · intro tb htb
      rcases mem_updateTable htb with hte | ⟨htb2, htbne⟩
      · subst hte
        intro r hr
        rw [hft3len] at hr
        have hrne : r ≠ m.row := by omega
        have he3 : tb.entityAt r = fromT.entityAt r := by
          rw [hft3ent r hr, if_neg hrne]
        obtain ⟨b, hb⟩ := hRold fromT hfromMem r (by omega)
        have hene : fromT.entityAt r ≠ entityId := by
          intro he
          rw [he, hlook] at hb
          have hm2 := Option.some_inj.mp hb
          have hmr : m.row = r := by rw [hm2]
          omega
        refine ⟨b, ?_⟩
        rw [he3]
        show (World.setMeta _ _ _).lookupMeta (fromT.entityAt r) = _
        rw [lookupMeta_setMeta_ne _ _ hene, hlk3, hb, hft3m, hfromMask]
      · rw [hw2] at htb2
        rcases mem_updateTable htb2 with hte2 | ⟨htb3, htbne2⟩
        · subst hte2
          intro r hr
          rw [hinslen] at hr
          by_cases hrt : r < tto.rows.length
          · rcases hcase with hc | ⟨hc, hce⟩
            · obtain ⟨b, hb⟩ := hRold tto (findTable_mem hc).1 r hrt
              have hene : tto.entityAt r ≠ entityId := by
                intro he
                rw [he, hlook] at hb
                have hm2 := Option.some_inj.mp hb
                have hmm2 : m.mask = tto.mask := by rw [hm2]
                rw [htom] at hmm2
                exact hnm hmm2.symm
              refine ⟨b, ?_⟩
              rw [hinslt r hrt]
              show (World.setMeta _ _ _).lookupMeta (tto.entityAt r) = _
              rw [lookupMeta_setMeta_ne _ _ hene, hlk3, hb, hinsmask, htom]
            · rw [hce] at hrt
              simp at hrt
          · have hrr : r = tto.rows.length := by omega
            subst hrr
            refine ⟨m.active, ?_⟩
            rw [hinsself]
            show (World.setMeta _ _ _).lookupMeta entityId = _
            rw [lookupMeta_setMeta_self, hinsmask, hins2]
        · have htbw : tb ∈ w.archetypes := by
            rw [hw1] at htb3
            rcases mem_getOrCreate htb3 with hh | hh
            · exact hh
            · exfalso
              apply htbne2
              rw [hh]
          intro r hr
          obtain ⟨b, hb⟩ := hRold tb htbw r hr
          have hene : tb.entityAt r ≠ entityId := by
            intro he
            rw [he, hlook] at hb
            have hm2 := Option.some_inj.mp hb
            have hmm2 : m.mask = tb.mask := by rw [hm2]
            exact htbne hmm2.symm
          refine ⟨b, ?_⟩
          show (World.setMeta _ _ _).lookupMeta (tb.entityAt r) = _
          rw [lookupMeta_setMeta_ne _ _ hene, hlk3, hb]
  · -- the migrated entity was not last: the last row's entity is relocated
    rw [if_neg hlast] at h
    simp only [] at h
    have hlt : fromT.rows.length - 1 < fromT.rows.length := by omega
    obtain ⟨bmv, hmv⟩ := hRold fromT hfromMem (fromT.rows.length - 1) hlt
    have hmv3 : (w2.updateTable m.mask ft3).lookupMeta (fromT.entityAt (fromT.rows.length - 1)) =
        some { mask := fromT.mask, row := fromT.rows.length - 1, active := bmv } := by
      rw [hlk3]
      exact hmv
    rw [mustGetMeta_ok hmv3, bindE_ok, pureE, bindE_ok, pureE] at h
    cases h
    have hmvne : fromT.entityAt (fromT.rows.length - 1) ≠ entityId := by
      intro he
      rw [he, hlook] at hmv
      have hm2 := Option.some_inj.mp hmv
      have hmr : m.row = fromT.rows.length - 1 := by rw [hm2]
      exact hlast hmr
    have hanyMv : (w2.updateTable m.mask ft3).metadata.any
        (fun p => p.1 == fromT.entityAt (fromT.rows.length - 1)) = true := by
      rw [hmd3]
      exact any_key_of_lookup hmv
    have hkeys1 : (setMetaEntry (w2.updateTable m.mask ft3).metadata
        (fromT.entityAt (fromT.rows.length - 1))
        { mask := fromT.mask, row := m.row, active := bmv }).map (fun p => p.1) =
        w.metadata.map (fun p => p.1) := by
      rw [keys_setMetaEntry_of_mem _ hanyMv, hmd3]
    refine ⟨?_, ?_, ?_, ?_, ?_⟩
    · exact hmasks3
    · show ((setMetaEntry (setMetaEntry (w2.updateTable m.mask ft3).metadata _ _)
        entityId _).map (fun p => p.1)).Nodup
      have hanyE2 : (setMetaEntry (w2.updateTable m.mask ft3).metadata
          (fromT.entityAt (fromT.rows.length - 1))
          { mask := fromT.mask, row := m.row, active := bmv }).any
          (fun p => p.1 == entityId) = true := by
        rw [any_key_congr hkeys1]
        exact any_key_of_lookup hlook
      rw [keys_setMetaEntry_of_mem _ hanyE2, hkeys1]
      exact hKold
    · intro p hp
      rcases mem_setMetaEntry hp with hpe | ⟨hp2, hneE⟩
      · subst hpe
        show entityId < w2.nextEntityId
        rw [hnextw2]
        exact hFold (entityId, m) (mem_of_lookupMeta hlook)
      · rcases mem_setMetaEntry hp2 with hpe2 | ⟨hp3, hneMv⟩
        · subst hpe2
          show fromT.entityAt (fromT.rows.length - 1) < w2.nextEntityId
          rw [hnextw2]
          exact hFold _ (mem_of_lookupMeta hmv)
        · rw [hmd3] at hp3
          show p.1 < w2.nextEntityId
          rw [hnextw2]
          exact hFold p hp3
    · intro p hp
      rcases mem_setMetaEntry hp with hpe | ⟨hp2, hneE⟩
      · subst hpe
        refine ⟨ins.1, hft3to, ?_, ?_⟩
        · simp only [hins2, hinslen]
          omega
        · simp only [hins2]
          exact hinsself
      · rcases mem_setMetaEntry hp2 with hpe2 | ⟨hp3, hneMv⟩
        · subst hpe2
          refine ⟨ft3, ?_, ?_, ?_⟩
          · show (w2.updateTable m.mask ft3).findTable fromT.mask = some ft3
            rw [hfromMask]
            exact hft3from
          · show m.row < ft3.rows.length
            omega
          · show ft3.entityAt m.row = fromT.entityAt (fromT.rows.length - 1)
            rw [hft3ent m.row (by omega), if_pos rfl]
        · rw [hmd3] at hp3
          obtain ⟨tp, hfp, hrowp, hentp⟩ := hEold p hp3
          by_cases pm1 : p.2.mask = nextMask
          · rcases hcase with hc | ⟨hc, _⟩
            · rw [pm1] at hfp
              rw [hfp] at hc
              cases hc
              refine ⟨ins.1, by rw [pm1]; exact hft3to, by omega, ?_⟩
              rw [hinslt _ hrowp]
              exact hentp
            · rw [pm1] at hfp
              rw [hfp] at hc
              cases hc
          · by_cases pm2 : p.2.mask = m.mask
            · rw [pm2] at hfp
              have htpf : tp = fromT := by
                rw [hfp] at hfrom
                exact Option.some_inj.mp hfrom
              subst htpf
              have hrne : p.2.row ≠ m.row := by
                intro he
                rw [he] at hentp
                rw [hentp] at hentm
                exact hneE hentm
              have hrne2 : p.2.row ≠ tp.rows.length - 1 := by
                intro he
                rw [he] at hentp
                exact hneMv hentp.symm
              have hrlt : p.2.row < tp.rows.length - 1 := by omega
              refine ⟨ft3, by rw [pm2]; exact hft3from, by omega, ?_⟩
              rw [hft3ent p.2.row hrlt, if_neg hrne]
              exact hentp
            · refine ⟨tp, ?_, hrowp, hentp⟩
              show (w2.updateTable m.mask ft3).findTable p.2.mask = some tp
              rw [hft3ne p.2.mask pm2 pm1]
              exact hfp
    · intro tb htb
      rcases mem_updateTable htb with hte | ⟨htb2, htbne⟩
      · subst hte
        intro r hr
        rw [hft3len] at hr
        by_cases hrm : r = m.row
        · subst hrm
          refine ⟨bmv, ?_⟩
          rw [hft3ent m.row hr, if_pos rfl]
          show (World.setMeta _ _ _).lookupMeta (fromT.entityAt (fromT.rows.length - 1)) = _
          rw [lookupMeta_setMeta_ne _ _ hmvne, lookupMeta_setMeta_self, hft3m, ← hfromMask]
        · have he3 : tb.entityAt r = fromT.entityAt r := by
            rw [hft3ent r hr, if_neg hrm]
          obtain ⟨b, hb⟩ := hRold fromT hfromMem r (by omega)
          have hene : fromT.entityAt r ≠ entityId := by
            intro he
            rw [he, hlook] at hb
            have hm2 := Option.some_inj.mp hb
            have hmr : m.row = r := by rw [hm2]
            omega
          have hemv : fromT.entityAt r ≠ fromT.entityAt (fromT.rows.length - 1) := by
            intro he
            rw [he, hmv] at hb
            have hm2 := Option.some_inj.mp hb
            have hrr : fromT.rows.length - 1 = r := by
              have := congrArg EntityMeta.row hm2
              simpa using this
            omega
          refine ⟨b, ?_⟩
          rw [he3]
          show (World.setMeta _ _ _).lookupMeta (fromT.entityAt r) = _
          rw [lookupMeta_setMeta_ne _ _ hene, lookupMeta_setMeta_ne _ _ hemv, hlk3, hb,
            hft3m, hfromMask]
      · rw [hw2] at htb2
        rcases mem_updateTable htb2 with hte2 | ⟨htb3, htbne2⟩
        · subst hte2
          intro r hr
          rw [hinslen] at hr
          by_cases hrt : r < tto.rows.length
          · rcases hcase with hc | ⟨hc, hce⟩
            · obtain ⟨b, hb⟩ := hRold tto (findTable_mem hc).1 r hrt
              have hene : tto.entityAt r ≠ entityId := by
                intro he
                rw [he, hlook] at hb
                have hm2 := Option.some_inj.mp hb
                have hmm2 : m.mask = tto.mask := by rw [hm2]
                rw [htom] at hmm2
                exact hnm hmm2.symm
              have hemv : tto.entityAt r ≠ fromT.entityAt (fromT.rows.length - 1) := by
                intro he
                rw [he, hmv] at hb
                have hm2 := Option.some_inj.mp hb
                have hmm2 : fromT.mask = tto.mask := by
                  have h3 := congrArg EntityMeta.mask hm2
                  simp only [] at h3
                  omega
                rw [htom, hfromMask] at hmm2
                exact hnm hmm2.symm
              refine ⟨b, ?_⟩
              rw [hinslt r hrt]
              show (World.setMeta _ _ _).lookupMeta (tto.entityAt r) = _
              rw [lookupMeta_setMeta_ne _ _ hene, lookupMeta_setMeta_ne _ _ hemv, hlk3, hb,
                hinsmask, htom]
            · rw [hce] at hrt
              simp at hrt
          · have hrr : r = tto.rows.length := by omega
            subst hrr
            refine ⟨m.active, ?_⟩
            rw [hinsself]
            show (World.setMeta _ _ _).lookupMeta entityId = _
            rw [lookupMeta_setMeta_self, hinsmask, hins2]
        · have htbw : tb ∈ w.archetypes := by
            rw [hw1] at htb3
            rcases mem_getOrCreate htb3 with hh | hh
            · exact hh
            · exfalso
              apply htbne2
              rw [hh]
          intro r hr
          obtain ⟨b, hb⟩ := hRold tb htbw r hr
          have hene : tb.entityAt r ≠ entityId := by
            intro he
            rw [he, hlook] at hb
            have hm2 := Option.some_inj.mp hb
            have hmm2 : m.mask = tb.mask := by rw [hm2]
            exact htbne hmm2.symm
          have hemv : tb.entityAt r ≠ fromT.entityAt (fromT.rows.length - 1) := by
            intro he
            rw [he, hmv] at hb
            have hm2 := Option.some_inj.mp hb
            have hmm2 : fromT.mask = tb.mask := by
              have h3 := congrArg EntityMeta.mask hm2
              simp only [] at h3
              omega
            rw [hfromMask] at hmm2
            exact htbne hmm2.symm
          refine ⟨b, ?_⟩
          show (World.setMeta _ _ _).lookupMeta (tb.entityAt r) = _
          rw [lookupMeta_setMeta_ne _ _ hene, lookupMeta_setMeta_ne _ _ hemv, hlk3, hb]

theorem lor_ne_of_land_zero {mask bit : ℕ} (hz : mask &&& bit = 0) (hb : bit ≠ 0) :
    mask ||| bit ≠ mask := by
  intro he
  apply hb
  apply Nat.eq_of_testBit_eq
  intro i
  rw [Nat.zero_testBit]
  by_cases hbi : bit.testBit i
  · have h1 : (mask ||| bit).testBit i = true := by
      rw [Nat.testBit_lor, hbi]
      simp
    rw [he] at h1
    have h2 : (mask &&& bit).testBit i = true := by
      rw [Nat.testBit_land, h1, hbi]
      rfl
    rw [hz, Nat.zero_testBit] at h2
    cases h2
  · simpa using hbi

theorem addComponent_WF {w w' : World} {entityId bit : ℕ} {v : Int} (hwf : WF w)
    (hbit : bit ≠ 0) (h : w.addComponent entityId bit v = .ok w') : WF w' := by
  cases hlook : w.lookupMeta entityId with
  | none =>
    unfold World.addComponent at h
    rw [mustGetMeta_err hlook, bindE_err] at h
    cases h
  | some m =>
    unfold World.addComponent at h
    rw [mustGetMeta_ok hlook, bindE_ok] at h
    by_cases hmb : (m.mask &&& bit != 0) = true
    · rw [if_pos hmb] at h
      cases hft : w.findTable m.mask with
      | none =>
        obtain ⟨tp, hfp, _, _⟩ := hwf.2.2.2.1 (entityId, m) (mem_of_lookupMeta hlook)
        rw [hfp] at hft
        cases hft
      | some t =>
        rw [metaTable_ok hft, bindE_ok] at h
        cases hwc : t.writeComponent w.layouts m.row bit v with
        | error e =>
          rw [hwc, bindE_err] at h
          cases h
        | ok t1 =>
          rw [hwc, bindE_ok, pureE] at h
          cases h
          obtain ⟨l, hl, hm⟩ := writeComponent_ok_inv hwc
          obtain ⟨t2, heq, hmask, hlen, _, hents, _, _⟩ :=
            @ArchetypeTable.writeComponent_spec _ t m.row _ v _ hl hm
          rw [hwc] at heq
          cases heq
          exact WF_updateTable hwf hft (by rw [hmask]; exact (findTable_mem hft).2) hlen
            (fun r _ => hents r)
    · rw [if_neg hmb] at h
      have hmz : m.mask &&& bit = 0 := by simpa using hmb
      exact migrateEntity_WF hwf hlook (lor_ne_of_land_zero hmz hbit) h

theorem removeComponent_WF {w w' : World} {entityId bit : ℕ} (hwf : WF w)
    (h : w.removeComponent entityId bit = .ok w') : WF w' := by
  cases hlook : w.lookupMeta entityId with
  | none =>
    unfold World.removeComponent at h
    rw [mustGetMeta_err hlook, bindE_err] at h
    cases h
  | some m =>
    unfold World.removeComponent at h
    rw [mustGetMeta_ok hlook, bindE_ok] at h
    by_cases hmb : m.mask &&& bit = 0
    · rw [if_pos hmb, pureE] at h
      cases h
      exact hwf
    · rw [if_neg hmb] at h
      have hle : m.mask &&& bit ≤ m.mask := Nat.and_le_left
      have hne : m.mask - (m.mask &&& bit) ≠ m.mask := by omega
      exact migrateEntity_WF hwf hlook hne h

/-- An operation argument restriction: `addComponent` must not be handed the
degenerate component bit 0 (see the C3 analysis). -/
def opOK : WorldOp → Prop
  | .add _ bit _ => bit ≠ 0
  | _ => True

instance (op : WorldOp) : Decidable (opOK op) := by
  cases op <;> unfold opOK <;> infer_instance

theorem applyOp_WF {w w' : World} {op : WorldOp} (hop : opOK op) (hwf : WF w)
    (h : applyOp w op = .ok w') : WF w' := by
  cases op with
  | create mask values =>
    cases h
    exact createEntity_WF mask values hwf
  | add entityId bit v => exact addComponent_WF hwf hop h
  | remove entityId bit => exact removeComponent_WF hwf h
  | setComp entityId bit v => exact setComponent_WF hwf h
  | deact entityId => exact deactivate_WF hwf h

theorem stepOp_WF {w : World} {op : WorldOp} (hop : opOK op) (hwf : WF w) :
    WF (stepOp w op) := by
  unfold stepOp
  cases h : applyOp w op with
  | error e => exact hwf
  | ok w2 => exact applyOp_WF hop hwf h

theorem runOps_WF {w : World} {ops : List WorldOp} (hops : ∀ op ∈ ops, opOK op)
    (hwf : WF w) : WF (runOps w ops) := by
  induction ops generalizing w with
  | nil => exact hwf
  | cons op ops ih =>
    exact ih (fun o ho => hops o (List.mem_cons_of_mem _ ho))
      (stepOp_WF (hops op (List.mem_cons_self _ _)) hwf)

theorem WF_create (layouts : List ComponentLayout) : WF (World.create layouts) := by
  refine ⟨List.nodup_nil, List.nodup_nil, ?_, ?_, ?_⟩ <;>
    intro p hp <;> cases hp

end WFPreservation

/-! ## LoopManager (`src/core/LoopManager.ts`)

Wall-clock times and deltas are modelled as rationals (JS numbers are
binary floating point; the concrete scenario proved below is robust to
rounding: every comparison in it holds with margin far above one ulp). -/

structure LoopConfig where
  fixedStepSeconds : ℚ
  maxFrameDeltaSeconds : ℚ
  maxFixedStepsPerFrame : ℕ
deriving DecidableEq, Repr

structure LoopState where
  accumulator : ℚ
  running : Bool
  frameIndex : ℕ
  lastTimestampMs : Option ℚ
deriving DecidableEq, Repr

/-- The fixed-step drain loop of `tick`:
`while (accumulator >= fixedStep && fixedSteps < maxFixedStepsPerFrame)`.
`remaining` counts the steps still allowed (`maxFixedStepsPerFrame`
minus the steps already run); the result is the final accumulator and the
number of `FixedUpdate` invocations. -/
def stepLoop (fixedStep : ℚ) : ℕ → ℚ → ℚ × ℕ
  | 0, acc => (acc, 0)
  | n + 1, acc =>
    if fixedStep ≤ acc then
      let r := stepLoop fixedStep n (acc - fixedStep)
      (r.1, r.2 + 1)
    else (acc, 0)

/-- One frame callback (`LoopManager.tick`) at wall-clock time `nowMs`.
Returns the next loop state and how many times `FixedUpdate` ran.
`LateUpdate` and `Render` each run once whenever the simulation body runs;
they do not touch this state. -/
def LoopManager.tick (cfg : LoopConfig) (s : LoopState) (nowMs : ℚ) : LoopState × ℕ :=
  if s.running = false then (s, 0)
  else
    match s.lastTimestampMs with
    | none => ({ s with lastTimestampMs := some nowMs }, 0)
    | some last =>
      let rawFrameDt := (nowMs - last) / 1000
      let frameDt := min (max rawFrameDt 0) cfg.maxFrameDeltaSeconds
      let r := stepLoop cfg.fixedStepSeconds cfg.maxFixedStepsPerFrame (s.accumulator + frameDt)
      let acc1 := if r.2 = cfg.maxFixedStepsPerFrame ∧ cfg.fixedStepSeconds ≤ r.1 then 0 else r.1
      ({ s with accumulator := acc1, frameIndex := s.frameIndex + 1,
                lastTimestampMs := some nowMs }, r.2)

/-! ## WorkerBridge (`src/core/WorkerBridge.ts`) -/

inductive WorkerDomain where
  | physics
  | pathfinding
  | procgen
deriving DecidableEq, Repr

/-- Message payloads of the versioned envelope protocol. -/
inductive WorkerMsgPayload where
  | initMsg (workerId : String) (sharedBufferByteLength : ℕ)
  | step (dt : ℚ) (frameIndex : Int)
  | sync (sequence : Int)
  | shutdown (reason : String)
deriving DecidableEq, Repr

structure WorkerEnvelope where
  version : ℕ
  domain : WorkerDomain
  payload : WorkerMsgPayload
deriving DecidableEq, Repr

def WORKER_PROTOCOL_VERSION : ℕ := 1

/-- `Atomics.store` on an `Int32Array` wraps the stored number to a signed
32-bit integer. -/
def toInt32 (v : Int) : Int := (v + 2 ^ 31).emod (2 ^ 32) - 2 ^ 31

/-- One per-domain channel: the three shared-memory regions plus the
outbound message log (`worker.postMessage` calls, in order; the envelope
timestamp, a wall-clock reading, is omitted from the model). -/
structure WorkerChannel where
  domain : WorkerDomain
  header : List Int
  transforms : List ℚ
  metaRegion : List ℕ
  outbox : List WorkerEnvelope
deriving DecidableEq, Repr

structure WorkerBridge where
  channels : List WorkerChannel
deriving DecidableEq, Repr

/-- `WorkerBridge.step(frameIndex, dt)`: for every registered channel, send
one STEP envelope and atomically publish `frameIndex` into control slot 0
(`Atomics.notify` wakes waiters but changes no state). -/
def WorkerBridge.step (b : WorkerBridge) (frameIndex : Int) (dt : ℚ) : WorkerBridge :=
  { channels := b.channels.map (fun ch =>
      { ch with
        outbox := ch.outbox ++
          [{ version := WORKER_PROTOCOL_VERSION, domain := ch.domain,
             payload := .step dt frameIndex }],
        header := ch.header.set 0 (toInt32 frameIndex) }) }

/-- `WorkerBridge.sync(sequence)`: broadcast a SYNC envelope only. -/
def WorkerBridge.sync (b : WorkerBridge) (sequence : Int) : WorkerBridge :=
  { channels := b.channels.map (fun ch =>
      { ch with
        outbox := ch.outbox ++
          [{ version := WORKER_PROTOCOL_VERSION, domain := ch.domain,
             payload := .sync sequence }] }) }

/-! ## ChunkStreamingManager (chunk streaming source file) -/

inductive ChunkPriority where
  | high
  | medium
  | low
deriving DecidableEq, Repr

structure ChunkState where
  cx : Int
  cy : Int
  priority : ChunkPriority
  distance : ℕ
  loaded : Bool
deriving DecidableEq, Repr

/-- The `${cx}:${cy}` map key, modelled as the coordinate pair (the string
key determines and is determined by the pair). -/
structure ChunkStreamingManager where
  chunkSizeMeters : ℚ
  enterRadiusChunks : ℕ
  exitRadiusChunks : ℕ
  activeChunks : List ((Int × Int) × ChunkState)
deriving DecidableEq, Repr

def chebDist (a b : Int × Int) : ℕ := max (a.1 - b.1).natAbs (a.2 - b.2).natAbs

def computePriority (distance : ℕ) : ChunkPriority :=
  if distance ≤ 1 then .high else if distance ≤ 3 then .medium else .low

def worldToChunk (m : ChunkStreamingManager) (pos : ℚ × ℚ) : Int × Int :=
  (⌊pos.1 / m.chunkSizeMeters⌋, ⌊pos.2 / m.chunkSizeMeters⌋)

def lookupChunk (ac : List ((Int × Int) × ChunkState)) (k : Int × Int) : Option ChunkState :=
  (ac.find? (fun p => p.1 == k)).map (·.2)

/-- One iteration of the load loop body at coordinate `c`: update the
existing chunk in place, or append a freshly loaded one. -/
def touchChunk (focus : Int × Int) (ac : List ((Int × Int) × ChunkState)) (c : Int × Int) :
    List ((Int × Int) × ChunkState) :=
  let distance := chebDist c focus
  let priority := computePriority distance
  if ac.any (fun p => p.1 == c) then
    ac.map (fun p =>
      if p.1 == c then
        (c, { p.2 with distance := distance, priority := priority, loaded := true })
      else p)
  else ac ++ [(c, { cx := c.1, cy := c.2, priority := priority, distance := distance,
                    loaded := true })]

/-- The coordinates visited by the load loop, `y` outer and `x` inner, each
from `focus - enterRadius` to `focus + enterRadius`. -/
def squareCoords (focus : Int × Int) (radius : ℕ) : List (Int × Int) :=
  ((List.range (2 * radius + 1)).map (fun dy =>
    (List.range (2 * radius + 1)).map (fun dx =>
      (focus.1 - radius + dx, focus.2 - radius + dy)))).flatten

/-- `updateFocus(position)`: load every chunk within the enter radius, then
unload every active chunk beyond the exit radius, and return the surviving
chunk states. -/
def ChunkStreamingManager.updateFocus (m : ChunkStreamingManager) (pos : ℚ × ℚ) :
    ChunkStreamingManager × List ChunkState :=
  let focus := worldToChunk m pos
  let ac1 := (squareCoords focus m.enterRadiusChunks).foldl (touchChunk focus) m.activeChunks
  let ac2 := ac1.filter (fun p => chebDist (p.2.cx, p.2.cy) focus ≤ m.exitRadiusChunks)
  ({ m with activeChunks := ac2 }, ac2.map (·.2))

def ChunkStreamingManager.getActiveChunks (m : ChunkStreamingManager) : List ChunkState :=
  m.activeChunks.map (·.2)

/-! ## Claim theorems -/

/-- The C1 scenario world: layouts `{bit:1, float32}` and
`{bit:2, uint32, default:5}`, after `createEntity(1)` (so the entity id
is 1). -/
def wC1 : World :=
  ((World.create [{ bit := 1, kind := .float32, defaultValue := none },
                  { bit := 2, kind := .uint32, defaultValue := some 5 }]).createEntity 1
    (fun _ => none)).1

/-- C1 counterexample: after `addComponent(id, 2)` with no explicit value
(the default parameter passes `value = 0`), `getComponent(id, 2)` returns
0, not the layout default 5 claimed by the spec: the defaulted parameter is
forwarded as an override `{2: 0}`, and overrides take precedence over
layout defaults in migration. -/
theorem C1_counterexample :
    (do
      let w1 ← wC1.addComponent 1 2 0
      w1.getComponent 1 2) = .ok 0 ∧
    ¬ (do
      let w1 ← wC1.addComponent 1 2 0
      w1.getComponent 1 2) = .ok 5 := by
  constructor <;> decide

/-- C1 (amended): in the scenario's world, `getComponent(id,2)` before the
add fails with a LookupError, and after `addComponent(id,2)` with no
explicit value it returns 0 (the defaulted `value = 0` parameter becomes an
override that beats the layout default 5); the float32 component keeps its
value 0 across the migration. -/
theorem C1_amended :
    exceptOk (wC1.getComponent 1 2) = false ∧
    (do
      let w1 ← wC1.addComponent 1 2 0
      w1.getComponent 1 2) = .ok 0 ∧
    (do
      let w1 ← wC1.addComponent 1 2 0
      w1.getComponent 1 1) = .ok 0 := by
  refine ⟨?_, ?_, ?_⟩ <;> decide

/-- The C2 scenario world: one float32 layout at bit 1; entity 1 created
with value 7 stored in component 1. -/
def wC2 : World :=
  ((World.create [{ bit := 1, kind := .float32, defaultValue := none }]).createEntity 1
    (fun b => if b = 1 then some 7 else none)).1

/-- C2 counterexample: `addComponent(1, 1, 3)` with bit 1 already present
is not a no-op — the stored component value changes from 7 to 3 (the
present-bit path overwrites the column cell). -/
theorem C2_counterexample :
    wC2.getComponent 1 1 = .ok 7 ∧
    (do
      let w1 ← wC2.addComponent 1 1 3
      w1.getComponent 1 1) = .ok 3 := by
  constructor <;> decide

/-- C10: `isActive` never throws — it is total, returns `false` for an
entity id with no metadata record (instead of the LookupError every other
per-entity operation raises), and returns `false` for a known entity after
`deactivate`. -/
theorem C10_isActive_total (w : World) (entityId : ℕ) :
    (w.lookupMeta entityId = none → w.isActive entityId = false) ∧
    (∀ w', w.deactivate entityId = .ok w' → w'.isActive entityId = false) := by
  constructor
  · intro h
    unfold World.isActive
    rw [h]
    rfl
  · intro w' h
    cases hlook : w.lookupMeta entityId with
    | none =>
      rw [deactivate_err_unknown hlook] at h
      cases h
    | some m =>
      rw [deactivate_eq hlook] at h
      cases h
      unfold World.isActive
      rw [lookupMeta_setMeta_self]
      rfl

/-- A world for the C10 witness: entity 1 exists and is then deactivated. -/
def wC10 : World :=
  ((World.create [{ bit := 1, kind := .float32, defaultValue := none }]).createEntity 1
    (fun _ => none)).1

def wC10d : World :=
  match wC10.deactivate 1 with
  | .ok w' => w'
  | .error _ => wC10

theorem C10_witness :
    (wC10.lookupMeta 42 = none ∧ wC10.isActive 42 = false) ∧
    (wC10.deactivate 1 = .ok wC10d ∧ wC10d.isActive 1 = false) :=
  ⟨⟨by decide, (C10_isActive_total wC10 42).1 (by decide)⟩,
   ⟨rfl, (C10_isActive_total wC10 1).2 wC10d rfl⟩⟩

/-- C2 (amended): for a known entity, `removeComponent` is a strict no-op
when the bit is absent (the world value is returned unchanged); but
`addComponent` with the bit already present is not a no-op: it performs no
migration — metadata and every archetype's entity column are unchanged, and
every other stored value reads back the same — yet it overwrites that
entity's stored value for that bit with the (converted) argument. -/
theorem C2_amended {w : World} {entityId bit : ℕ} {v : Int} {m : EntityMeta}
    (hwf : WF w) (hlook : w.lookupMeta entityId = some m) :
    (m.mask &&& bit = 0 → w.removeComponent entityId bit = .ok w) ∧
    (m.mask &&& bit ≠ 0 → ∀ w', w.addComponent entityId bit v = .ok w' →
      w'.metadata = w.metadata ∧
      (∀ mask', ((w'.findTable mask').map (fun t => t.rows.map Row.ent)) =
        ((w.findTable mask').map (fun t => t.rows.map Row.ent))) ∧
      (∀ e b, e ≠ entityId ∨ b ≠ bit → w'.getComponent e b = w.getComponent e b) ∧
      (∀ l, layoutFor w.layouts bit = some l →
        w'.getComponent entityId bit = .ok (storeConv l.kind v))) := by
  constructor
  · intro hmb
    unfold World.removeComponent
    rw [mustGetMeta_ok hlook, bindE_ok, if_pos hmb, pureE]
  · intro hmb w' hadd
    obtain ⟨t, hft0, hrowm0, hentm0⟩ := hwf.2.2.2.1 (entityId, m) (mem_of_lookupMeta hlook)
    have hft : w.findTable m.mask = some t := hft0
    have hrowm : m.row < t.rows.length := hrowm0
    have hentm : t.entityAt m.row = entityId := hentm0
    clear hft0 hrowm0 hentm0
    have htm : t.mask = m.mask := (findTable_mem hft).2
    unfold World.addComponent at hadd
    rw [mustGetMeta_ok hlook, bindE_ok, if_pos (by simpa using hmb),
      metaTable_ok hft, bindE_ok] at hadd
    cases hwc : t.writeComponent w.layouts m.row bit v with
    | error e =>
      rw [hwc, bindE_err] at hadd
      cases hadd
    | ok t1 =>
      rw [hwc, bindE_ok, pureE] at hadd
      cases hadd
      obtain ⟨l0, hl0, hm0⟩ := writeComponent_ok_inv hwc
      obtain ⟨t2, heq, hmaskeq, hlen, hentsmap, hents, hcolother, hcolw⟩ :=
        @ArchetypeTable.writeComponent_spec _ t m.row _ v _ hl0 hm0
      rw [hwc] at heq
      cases heq
      have ht1m : t1.mask = m.mask := by rw [hmaskeq, htm]
      have hft1 : (w.updateTable m.mask t1).findTable m.mask = some t1 :=
        findTable_updateTable_self hft ht1m
      refine ⟨rfl, ?_, ?_, ?_⟩
      · intro mask'
        by_cases hmm : mask' = m.mask
        · subst hmm
          rw [hft1, hft]
          simp only [Option.map_some']
          rw [hentsmap]
        · rw [findTable_updateTable_ne hmm ht1m]
      · intro e b hne
        cases hlooke : w.lookupMeta e with
        | none =>
          have hlooke' : (w.updateTable m.mask t1).lookupMeta e = none := hlooke
          rw [getComponent_err_unknown hlooke', getComponent_err_unknown hlooke]
        | some me =>
          have hlooke' : (w.updateTable m.mask t1).lookupMeta e = some me := hlooke
          obtain ⟨te, hfte0, hrowe0, hente0⟩ :=
            hwf.2.2.2.1 (e, me) (mem_of_lookupMeta hlooke)
          have hfte : w.findTable me.mask = some te := hfte0
          have hrowe : me.row < te.rows.length := hrowe0
          have hente : te.entityAt me.row = e := hente0
          clear hfte0 hrowe0 hente0
          by_cases hmm : me.mask = m.mask
          · have hte : te = t := by
              rw [hmm] at hfte
              rw [hfte] at hft
              exact Option.some_inj.mp hft
            subst hte
            rw [getComponent_eq hlooke' (by rw [hmm]; exact hft1),
              getComponent_eq hlooke hfte]
            show t1.readComponent w.layouts me.row b = te.readComponent w.layouts me.row b
            unfold ArchetypeTable.readComponent
            rw [show hasCol w.layouts t1.mask b = hasCol w.layouts te.mask b by
              rw [ht1m, htm]]
            by_cases hcol : hasCol w.layouts te.mask b = true
            · rw [if_pos hcol, if_pos hcol]
              have hro : me.row ≠ m.row ∨ b ≠ bit := by
                rcases hne with hne | hne
                · left
                  intro he
                  rw [he] at hente
                  rw [hente] at hentm
                  exact hne hentm
                · right
                  exact hne
              rw [hcolother me.row b hro]
            · rw [if_neg hcol, if_neg hcol]
          · have hfte' : (w.updateTable m.mask t1).findTable me.mask = some te := by
              rw [findTable_updateTable_ne hmm ht1m]
              exact hfte
            rw [getComponent_eq hlooke' hfte', getComponent_eq hlooke hfte]
            rfl
      · intro l hl
        have hll : l = l0 := by
          rw [hl] at hl0
          exact Option.some_inj.mp hl0
        subst hll
        have hlook' : (w.updateTable m.mask t1).lookupMeta entityId = some m := hlook
        rw [getComponent_eq hlook' hft1]
        show t1.readComponent w.layouts m.row bit = _
        have hcol : hasCol w.layouts t1.mask bit = true := by
          unfold hasCol
          rw [hl0, ht1m]
          simp only [Option.isSome_some, Bool.true_and]
          simpa using hmb
        rw [ArchetypeTable.readComponent_ok hcol, hcolw hrowm]

/-- Witness world for C2 (amended): the result of the counterexample's
`addComponent` call. -/
def wC2' : World :=
  match wC2.addComponent 1 1 3 with
  | .ok w' => w'
  | .error _ => wC2

theorem C2_amended_witness :
    (WF wC2 ∧ wC2.lookupMeta 1 = some { mask := 1, row := 0, active := true } ∧
      (1 : ℕ) &&& 1 ≠ 0 ∧ wC2.addComponent 1 1 3 = .ok wC2') ∧
    (wC2'.metadata = wC2.metadata ∧
      ((wC2'.findTable 1).map (fun t => t.rows.map Row.ent)) =
        ((wC2.findTable 1).map (fun t => t.rows.map Row.ent)) ∧
      wC2'.getComponent 2 1 = wC2.getComponent 2 1 ∧
      wC2'.getComponent 1 1 = .ok (storeConv ComponentStorageKind.float32 3)) := by
  have h := @C2_amended wC2 1 1 3 { mask := 1, row := 0, active := true }
    (by decide) (by decide)
  have h2 := h.2 (by decide) wC2' rfl
  exact ⟨⟨by decide, by decide, by decide, rfl⟩,
    ⟨h2.1, h2.2.1 1, h2.2.2.1 2 1 (Or.inl (by decide)), h2.2.2.2 { bit := 1, kind := .float32, defaultValue := none } (by decide)⟩⟩

/-- C3: for every sequence of World operations in which `addComponent` is
never handed the degenerate component bit 0, the metadata invariant holds:
exactly one metadata record per live entity id (the keys are duplicate
free), and each record's table holds that id at the record's row
(`meta.table.entityAt(meta.row) == id`). -/
theorem C3_invariant (layouts : List ComponentLayout) (ops : List WorldOp)
    (hops : ∀ op ∈ ops, opOK op) :
    ((runOps (World.create layouts) ops).metadata.map (fun p => p.1)).Nodup ∧
    (∀ p ∈ (runOps (World.create layouts) ops).metadata,
      ∃ t, (runOps (World.create layouts) ops).findTable p.2.mask = some t ∧
        t.entityAt p.2.row = p.1) := by
  have h := runOps_WF hops (WF_create layouts)
  refine ⟨h.2.1, ?_⟩
  intro p hp
  obtain ⟨t, hft, _, hent⟩ := h.2.2.2.1 p hp
  exact ⟨t, hft, hent⟩

/-- The C3 counterexample world: `createEntity(1)`, then
`addComponent(1, 0)` (bit 0: the target mask equals the source mask, so the
entity migrates into its own table and the bookkeeping corrupts its row),
then another `createEntity(1)`. -/
def wC3bad : World :=
  runOps (World.create [{ bit := 1, kind := .float32, defaultValue := none }])
    [.create 1 (fun _ => none), .add 1 0 0, .create 1 (fun _ => none)]

/-- C3 counterexample: after the sequence above, entity 1's metadata points
at row 1 of the mask-1 table, but the entity stored at that row is entity 2
— `meta.table.entityAt(meta.row) == id` is violated, so the claim is false
for unrestricted operation sequences. -/
theorem C3_counterexample :
    wC3bad.lookupMeta 1 = some { mask := 1, row := 1, active := true } ∧
    ((wC3bad.findTable 1).map (fun t => t.entityAt 1)) = some 2 ∧ (2 : ℕ) ≠ 1 := by
  refine ⟨?_, ?_, ?_⟩ <;> decide

def opsC3 : List WorldOp :=
  [.create 1 (fun _ => none), .create 3 (fun _ => none), .add 1 2 9, .remove 2 1,
   .setComp 1 1 4, .deact 2]

theorem C3_witness :
    (∀ op ∈ opsC3, opOK op) ∧
    (((runOps (World.create [{ bit := 1, kind := .float32, defaultValue := none },
        { bit := 2, kind := .uint32, defaultValue := some 5 }]) opsC3).metadata.map
        (fun p => p.1)).Nodup ∧
      (∀ p ∈ (runOps (World.create [{ bit := 1, kind := .float32, defaultValue := none },
          { bit := 2, kind := .uint32, defaultValue := some 5 }]) opsC3).metadata,
        ∃ t, (runOps (World.create [{ bit := 1, kind := .float32, defaultValue := none },
            { bit := 2, kind := .uint32, defaultValue := some 5 }]) opsC3).findTable
            p.2.mask = some t ∧ t.entityAt p.2.row = p.1)) :=
  ⟨by decide, C3_invariant _ opsC3 (by decide)⟩

/-! ### C4: swap-remove -/

/-- The two table mutators, as a sequence item. -/
inductive TableOp where
  | ins (entityId : ℕ) (values : ℕ → Option Int)
  | rem (row : ℕ)

def applyTableOp (layouts : List ComponentLayout) (t : ArchetypeTable) : TableOp → ArchetypeTable
  | .ins entityId values => (t.insert layouts entityId values).1
  | .rem row =>
    match t.removeAt row with
    | .ok res => res.1
    | .error _ => t

def runTableOps (layouts : List ComponentLayout) (t : ArchetypeTable)
    (ops : List TableOp) : ArchetypeTable :=
  ops.foldl (applyTableOp layouts) t

/-- The entity ids inserted by a sequence of table operations. -/
def insIds : List TableOp → List ℕ
  | [] => []
  | .ins entityId _ :: rest => entityId :: insIds rest
  | .rem _ :: rest => insIds rest

theorem applyTableOp_rem_ok {layouts : List ComponentLayout} {t : ArchetypeTable}
    {row : ℕ} {res : ArchetypeTable × Option ℕ} (h : t.removeAt row = .ok res) :
    applyTableOp layouts t (.rem row) = res.1 := by
  show (match t.removeAt row with
    | Except.ok r => r.1
    | Except.error _ => t) = res.1
  rw [h]

theorem applyTableOp_rem_err {layouts : List ComponentLayout} {t : ArchetypeTable}
    {row : ℕ} {e : String} (h : t.removeAt row = .error e) :
    applyTableOp layouts t (.rem row) = t := by
  show (match t.removeAt row with
    | Except.ok r => r.1
    | Except.error _ => t) = t
  rw [h]

/-- One table operation preserves duplicate-freedom of the entity column
and keeps unlisted ids out, provided the inserted ids are fresh. -/
theorem applyTableOp_nodup {layouts : List ComponentLayout} {t : ArchetypeTable}
    {op : TableOp}
    (hnd : (t.rows.map Row.ent).Nodup)
    (hfresh : ∀ e ∈ insIds [op], e ∉ t.rows.map Row.ent) :
    ((applyTableOp layouts t op).rows.map Row.ent).Nodup ∧
    (∀ e, e ∈ (applyTableOp layouts t op).rows.map Row.ent →
      e ∈ t.rows.map Row.ent ∨ e ∈ insIds [op]) := by
  cases op with
  | ins entityId values =>
    unfold applyTableOp
    rw [ArchetypeTable.ents_insert]
    constructor
    · rw [List.nodup_append]
      refine ⟨hnd, by simp, ?_⟩
      intro x hx hx2
      simp only [List.mem_singleton] at hx2
      subst hx2
      exact hfresh x (by simp [insIds]) hx
    · intro e he
      rcases List.mem_append.mp he with he | he
      · exact Or.inl he
      · right
        simpa [insIds] using he
  | rem row =>
    cases hrem : t.removeAt row with
    | error e =>
      rw [applyTableOp_rem_err hrem]
      exact ⟨hnd, fun e2 he => Or.inl he⟩
    | ok res =>
      rw [applyTableOp_rem_ok hrem]
      have hperm := @ArchetypeTable.removeAt_ents_perm t res.1 row res.2 (by rw [hrem])
      constructor
      · rw [hperm.nodup_iff]
        exact ((t.rows.map Row.ent).eraseIdx_sublist row).nodup hnd
      · intro e2 he
        left
        exact ((t.rows.map Row.ent).eraseIdx_sublist row).subset (hperm.mem_iff.mp he)

theorem runTableOps_nodup {layouts : List ComponentLayout} {t : ArchetypeTable}
    {ops : List TableOp}
    (hnd : (t.rows.map Row.ent).Nodup)
    (hids : (insIds ops).Nodup)
    (hfresh : ∀ e ∈ insIds ops, e ∉ t.rows.map Row.ent) :
    ((runTableOps layouts t ops).rows.map Row.ent).Nodup := by
  induction ops generalizing t with
  | nil => exact hnd
  | cons op rest ih =>
    have hsplit : ∀ e, e ∈ insIds [op] → e ∈ insIds (op :: rest) := by
      intro e he
      cases op with
      | ins entityId values =>
        simp only [insIds, List.mem_singleton] at he
        subst he
        simp [insIds]
      | rem row => simp [insIds] at he
    have hstep := @applyTableOp_nodup layouts t op hnd
      (fun e he => hfresh e (hsplit e he))
    have hrest_ids : (insIds rest).Nodup := by
      cases op with
      | ins entityId values =>
        simp only [insIds, List.nodup_cons] at hids
        exact hids.2
      | rem row => exact hids
    have hrest_fresh : ∀ e ∈ insIds rest, e ∉ (applyTableOp layouts t op).rows.map Row.ent := by
      intro e he hemem
      rcases hstep.2 e hemem with hin | hin
      · cases op with
        | ins entityId values =>
          exact hfresh e (by simp [insIds, he]) hin
        | rem row => exact hfresh e he hin
      · cases op with
        | ins entityId values =>
          simp only [insIds, List.mem_singleton] at hin
          subst hin
          simp only [insIds, List.nodup_cons] at hids
          exact hids.1 he
        | rem row => simp [insIds] at hin
    show ((runTableOps layouts (applyTableOp layouts t op) rest).rows.map Row.ent).Nodup
    exact ih hstep.1 hrest_ids hrest_fresh

/-- C4: (a) removing an interior row `r` from a table of length `L > 1`
relocates the entity previously at row `L-1` into row `r`, shrinks the
table to `L-1`, and the entity column afterwards is a permutation of the
old column with exactly the row-`r` entry erased (nothing else is lost or
duplicated); (b) `insert` appends exactly the new id to the entity column;
(c) across every sequence of inserts and removes whose inserted ids are
fresh and pairwise distinct, the entity column stays duplicate-free. -/
theorem C4_swap_remove :
    (∀ (t : ArchetypeTable) (r : ℕ), r + 1 < t.rows.length →
      ∃ t', t.removeAt r = .ok (t', some (t.entityAt (t.rows.length - 1))) ∧
        t'.entityAt r = t.entityAt (t.rows.length - 1) ∧
        t'.rows.length = t.rows.length - 1 ∧
        (t'.rows.map Row.ent).Perm ((t.rows.map Row.ent).eraseIdx r)) ∧
    (∀ (layouts : List ComponentLayout) (t : ArchetypeTable) (entityId : ℕ)
        (values : ℕ → Option Int),
      ((t.insert layouts entityId values).1).rows.map Row.ent =
        t.rows.map Row.ent ++ [entityId]) ∧
    (∀ (layouts : List ComponentLayout) (t : ArchetypeTable) (ops : List TableOp),
      (t.rows.map Row.ent).Nodup → (insIds ops).Nodup →
      (∀ e ∈ insIds ops, e ∉ t.rows.map Row.ent) →
      ((runTableOps layouts t ops).rows.map Row.ent).Nodup) := by
  refine ⟨?_, ?_, ?_⟩
  · intro t r hr
    have hrlt : r < t.rows.length := by omega
    have hrne : r ≠ t.rows.length - 1 := by omega
    obtain ⟨t', heq, _, hlen, hent, _⟩ := ArchetypeTable.removeAt_spec hrlt
    rw [if_neg hrne] at heq
    refine ⟨t', heq, ?_, hlen, ?_⟩
    · rw [hent r (by omega), if_pos rfl]
    · exact ArchetypeTable.removeAt_ents_perm heq
  · intro layouts t entityId values
    exact ArchetypeTable.ents_insert layouts t entityId values
  · intro layouts t ops hnd hids hfresh
    exact runTableOps_nodup hnd hids hfresh

def tC4 : ArchetypeTable :=
  { mask := 1, rows := [{ ent := 1, val := fun _ => 0 }, { ent := 2, val := fun _ => 0 },
      { ent := 3, val := fun _ => 0 }] }

def opsC4 : List TableOp := [.ins 4 (fun _ => none), .rem 0, .rem 1]

theorem C4_witness :
    ((0 : ℕ) + 1 < tC4.rows.length ∧ (tC4.rows.map Row.ent).Nodup ∧
      (insIds opsC4).Nodup ∧ (∀ e ∈ insIds opsC4, e ∉ tC4.rows.map Row.ent)) ∧
    ((∃ t', tC4.removeAt 0 = .ok (t', some (tC4.entityAt (tC4.rows.length - 1))) ∧
        t'.entityAt 0 = tC4.entityAt (tC4.rows.length - 1) ∧
        t'.rows.length = tC4.rows.length - 1 ∧
        (t'.rows.map Row.ent).Perm ((tC4.rows.map Row.ent).eraseIdx 0)) ∧
      ((runTableOps [] tC4 opsC4).rows.map Row.ent).Nodup) :=
  ⟨⟨by decide, by decide, by decide, by decide⟩,
   ⟨C4_swap_remove.1 tC4 0 (by decide),
    C4_swap_remove.2.2 [] tC4 opsC4 (by decide) (by decide) (by decide)⟩⟩

/-- C8: in a well-formed world, `getComponent` and `setComponent` fail
with a LookupError exactly when the entity id is unknown or the (declared)
bit is absent from the entity's current mask; when the entity is known and
the bit present, both succeed and access the entity's current row directly
(`getComponent` returns the cell at `(meta.row, bit)` of the entity's
table). -/
theorem C8_lookup_errors {w : World} {entityId bit : ℕ} {v : Int} (hwf : WF w)
    (hdecl : (layoutFor w.layouts bit).isSome = true) :
    (w.lookupMeta entityId = none →
      exceptOk (w.getComponent entityId bit) = false ∧
      exceptOk (w.setComponent entityId bit v) = false) ∧
    (∀ m, w.lookupMeta entityId = some m →
      (m.mask &&& bit = 0 →
        exceptOk (w.getComponent entityId bit) = false ∧
        exceptOk (w.setComponent entityId bit v) = false) ∧
      (m.mask &&& bit ≠ 0 →
        ∃ t, w.findTable m.mask = some t ∧
          w.getComponent entityId bit = .ok (t.colAt m.row bit) ∧
          exceptOk (w.setComponent entityId bit v) = true)) := by
  constructor
  · intro hlook
    rw [getComponent_err_unknown hlook, setComponent_err_unknown hlook]
    exact ⟨rfl, rfl⟩
  · intro m hlook
    obtain ⟨t, hft0, hrow0, hent0⟩ := hwf.2.2.2.1 (entityId, m) (mem_of_lookupMeta hlook)
    have hft : w.findTable m.mask = some t := hft0
    have htm : t.mask = m.mask := (findTable_mem hft).2
    constructor
    · intro hmb
      have hcol : ¬ hasCol w.layouts t.mask bit = true := by
        unfold hasCol
        rw [htm]
        simp [hmb]
      constructor
      · rw [getComponent_eq hlook hft, ArchetypeTable.readComponent_err hcol]
        rfl
      · rw [setComponent_eq hlook hft,
          ArchetypeTable.writeComponent_err hcol]
        rfl
    · intro hmb
      obtain ⟨l, hl⟩ := Option.isSome_iff_exists.mp hdecl
      have hmbt : (t.mask &&& bit != 0) = true := by
        rw [htm]
        simpa using hmb
      have hcol : hasCol w.layouts t.mask bit = true := by
        unfold hasCol
        rw [hl, hmbt]
        rfl
      refine ⟨t, hft, ?_, ?_⟩
      · rw [getComponent_eq hlook hft, ArchetypeTable.readComponent_ok hcol]
      · obtain ⟨t2, heq, _⟩ := @ArchetypeTable.writeComponent_spec _ t m.row _ v _ hl hmbt
        rw [setComponent_eq hlook hft, heq]
        rfl

def wC8 : World :=
  ((World.create [{ bit := 1, kind := .float32, defaultValue := none },
                  { bit := 2, kind := .uint32, defaultValue := some 5 }]).createEntity 1
    (fun _ => none)).1

theorem C8_witness :
    (WF wC8 ∧ (layoutFor wC8.layouts 2).isSome = true ∧
      wC8.lookupMeta 7 = none ∧
      wC8.lookupMeta 1 = some { mask := 1, row := 0, active := true } ∧
      ((1 : ℕ) &&& 2 = 0)) ∧
    (exceptOk (wC8.getComponent 7 2) = false ∧
      exceptOk (wC8.setComponent 7 2 3) = false ∧
      exceptOk (wC8.getComponent 1 2) = false ∧
      exceptOk (wC8.setComponent 1 2 3) = false) := by
  have hthm := @C8_lookup_errors wC8 7 2 3 (by decide) (by decide)
  have h1 := hthm.1 (by decide)
  have hthm2 := @C8_lookup_errors wC8 1 2 3 (by decide) (by decide)
  have h2 := (hthm2.2 { mask := 1, row := 0, active := true } (by decide)).1 (by decide)
  exact ⟨⟨by decide, by decide, by decide, by decide, by decide⟩,
    ⟨h1.1, h1.2, h2.1, h2.2⟩⟩

theorem entityAt_eq_get {t : ArchetypeTable} {i : ℕ} (h : i < t.rows.length) :
    t.entityAt i = (t.rows.get ⟨i, h⟩).ent := by
  unfold ArchetypeTable.entityAt
  rw [List.get_eq_getElem, List.getElem?_eq_getElem h]
  rfl

theorem lookup_mask_of_mem_ents {w : World} {t : ArchetypeTable} {e : ℕ}
    (hR : rowOK w t) (he : e ∈ t.rows.map Row.ent) :
    ∃ mm, w.lookupMeta e = some mm ∧ mm.mask = t.mask := by
  obtain ⟨r, hr, hre⟩ := List.mem_map.mp he
  obtain ⟨⟨i, hi⟩, hget⟩ := List.mem_iff_get.mp hr
  obtain ⟨b, hb⟩ := hR i hi
  rw [entityAt_eq_get hi, hget, hre] at hb
  exact ⟨_, hb, rfl⟩

theorem table_ents_nodup {w : World} {t : ArchetypeTable} (hR : rowOK w t) :
    (t.rows.map Row.ent).Nodup := by
  rw [List.nodup_iff_getElem?_ne_getElem?]
  intro i j hij hj hcontra
  have hjlen : j < t.rows.length := by simpa using hj
  have hilen : i < t.rows.length := by omega
  have hgi : (t.rows.map Row.ent)[i]? = some (t.entityAt i) := by
    rw [List.getElem?_map, List.getElem?_eq_getElem hilen]
    rw [entityAt_eq_get hilen, List.get_eq_getElem]
    rfl
  have hgj : (t.rows.map Row.ent)[j]? = some (t.entityAt j) := by
    rw [List.getElem?_map, List.getElem?_eq_getElem hjlen]
    rw [entityAt_eq_get hjlen, List.get_eq_getElem]
    rfl
  rw [hgi, hgj] at hcontra
  have heq : t.entityAt i = t.entityAt j := Option.some_inj.mp hcontra
  obtain ⟨b, hbi⟩ := hR i hilen
  obtain ⟨b', hbj⟩ := hR j hjlen
  rw [heq, hbj] at hbi
  have := congrArg EntityMeta.row (Option.some_inj.mp hbi)
  simp only [] at this
  omega

/-- C5: in a well-formed world, the query over `M` yields each active
entity whose mask is a bitwise superset of `M` exactly once — no more, no
fewer — independent of how many archetypes the entities are spread
across. -/
theorem C5_query_exact {w : World} (M : ℕ) (hwf : WF w) :
    ((w.createQuery M).entities).Nodup ∧
    (∀ e, e ∈ (w.createQuery M).entities ↔
      ∃ m, w.lookupMeta e = some m ∧ m.active = true ∧ m.mask &&& M = M) := by
  obtain ⟨hM, hK, hF, hE, hR⟩ := hwf
  have hqe : (w.createQuery M).entities = w.queryEntities M := rfl
  constructor
  · rw [hqe]
    unfold World.queryEntities
    rw [List.nodup_flatMap]
    constructor
    · intro t ht
      have htmem : t ∈ w.archetypes := (List.mem_filter.mp ht).1
      exact (table_ents_nodup (hR t htmem)).filter _
    · have hpw : List.Pairwise (fun a b : ArchetypeTable => a.mask ≠ b.mask)
          (w.archetypes.filter (fun t => t.compatibleWith M)) :=
        (List.pairwise_map.mp hM).filter _
      refine hpw.imp_of_mem ?_
      intro a b ha hb hne
      intro e hea heb
      have hamem : a ∈ w.archetypes := (List.mem_filter.mp ha).1
      have hbmem : b ∈ w.archetypes := (List.mem_filter.mp hb).1
      have hea2 : e ∈ a.rows.map Row.ent := (List.mem_filter.mp hea).1
      have heb2 : e ∈ b.rows.map Row.ent := (List.mem_filter.mp heb).1
      obtain ⟨ma, hla, hma⟩ := lookup_mask_of_mem_ents (hR a hamem) hea2
      obtain ⟨mb, hlb, hmb⟩ := lookup_mask_of_mem_ents (hR b hbmem) heb2
      rw [hla] at hlb
      have : ma = mb := Option.some_inj.mp hlb
      apply hne
      rw [← hma, ← hmb, this]
  · intro e
    rw [hqe]
    unfold World.queryEntities
    rw [List.mem_flatMap]
    constructor
    · rintro ⟨t, ht, hin⟩
      have htmem : t ∈ w.archetypes := (List.mem_filter.mp ht).1
      have hcompat : t.compatibleWith M = true := (List.mem_filter.mp ht).2
      have hin2 : e ∈ t.rows.map Row.ent := (List.mem_filter.mp hin).1
      have hact : w.isActive e = true := (List.mem_filter.mp hin).2
      obtain ⟨mm, hlm, hmm⟩ := lookup_mask_of_mem_ents (hR t htmem) hin2
      refine ⟨mm, hlm, ?_, ?_⟩
      · unfold World.isActive at hact
        rw [hlm] at hact
        simpa using hact
      · unfold ArchetypeTable.compatibleWith at hcompat
        rw [hmm]
        simpa using hcompat
    · rintro ⟨m, hlm, hact, hsup⟩
      obtain ⟨t, hft0, hrow0, hent0⟩ := hE (e, m) (mem_of_lookupMeta hlm)
      have hft : w.findTable m.mask = some t := hft0
      have hrow : m.row < t.rows.length := hrow0
      have hent : t.entityAt m.row = e := hent0
      have htm : t.mask = m.mask := (findTable_mem hft).2
      refine ⟨t, ?_, ?_⟩
      · rw [List.mem_filter]
        refine ⟨(findTable_mem hft).1, ?_⟩
        unfold ArchetypeTable.compatibleWith
        rw [htm]
        simpa using hsup
      · rw [List.mem_filter]
        constructor
        · rw [← hent, entityAt_eq_get hrow]
          exact List.mem_map.mpr ⟨_, (t.rows.get_mem _ _), rfl⟩
        · unfold World.isActive
          rw [hlm]
          simp [hact]

/-- Witness world for C5: three archetypes (masks 1, 3, 7), entity 2
deactivated. -/
def wC5 : World :=
  runOps (World.create [{ bit := 1, kind := .float32, defaultValue := none },
    { bit := 2, kind := .uint32, defaultValue := some 5 },
    { bit := 4, kind := .int8, defaultValue := none }])
    [.create 1 (fun _ => none), .create 3 (fun _ => none), .create 7 (fun _ => none),
     .create 3 (fun _ => none), .deact 2]

theorem C5_witness :
    WF wC5 ∧
    (((wC5.createQuery 1).entities).Nodup ∧
      (∀ e, e ∈ (wC5.createQuery 1).entities ↔
        ∃ m, wC5.lookupMeta e = some m ∧ m.active = true ∧ m.mask &&& 1 = 1)) :=
  ⟨by decide, C5_query_exact 1 (by decide)⟩

/-- C6: with `fixedStep = 1/60`, `maxFrameDeltaSeconds = 0.25` and
`maxFixedStepsPerFrame = 5`, a single frame callback arriving 5 seconds
(5000 ms) after the previous one with an empty accumulator runs
`FixedUpdate` exactly 5 times and leaves the accumulator at 0: the frame
delta is clamped to 0.25 s, the drain loop is capped at 5 steps, and the
remaining backlog (1/6 s ≥ one step) is discarded.  (Times are modelled as
rationals; every comparison holds with margin far above float64 rounding.) -/
theorem C6_scheduler_cap (t : ℚ) (fi : ℕ) :
    LoopManager.tick
      { fixedStepSeconds := 1/60, maxFrameDeltaSeconds := 1/4, maxFixedStepsPerFrame := 5 }
      { accumulator := 0, running := true, frameIndex := fi, lastTimestampMs := some t }
      (t + 5000) =
    ({ accumulator := 0, running := true, frameIndex := fi + 1,
                         lastTimestampMs := some (t + 5000) }, 5) := by
  unfold LoopManager.tick
  have hdt : ((t + 5000 - t) / 1000 : ℚ) = 5 := by ring
  norm_num [hdt, stepLoop, Prod.mk.injEq, LoopState.mk.injEq]

/-- C7: `WorkerBridge.step(f, dt)` (for a frame index in int32 range, which
every frame counter value reached by the loop is) leaves the channel list
the same length and, for each registered channel, appends exactly one STEP
envelope carrying payload `{dt, frameIndex := f}` to its outbox and stores
`f` into slot 0 of its control header — domain, transforms, the meta
region, the other header slots and everything else are untouched. -/
theorem C7_worker_step (b : WorkerBridge) (f : Int) (dt : ℚ)
    (h1 : 0 ≤ f) (h2 : f < 2 ^ 31) :
    (b.step f dt).channels.length = b.channels.length ∧
    (∀ (i : ℕ) (ch : WorkerChannel), b.channels[i]? = some ch →
      (b.step f dt).channels[i]? = some
        { ch with
          outbox := ch.outbox ++ [{ version := WORKER_PROTOCOL_VERSION,
                                    domain := ch.domain, payload := .step dt f }],
          header := ch.header.set 0 f }) := by
  have hf : toInt32 f = f := by
    show (f + 2 ^ 31) % 2 ^ 32 - 2 ^ 31 = f
    omega
  constructor
  · unfold WorkerBridge.step
    simp
  · intro i ch hch
    unfold WorkerBridge.step
    simp only [List.getElem?_map, hch, Option.map_some']
    rw [hf]

def bC7 : WorkerBridge :=
  { channels := [{ domain := .physics, header := List.replicate 16 0,
                   transforms := [], metaRegion := [], outbox := [] }] }

theorem C7_witness :
    ((0 : Int) ≤ 7 ∧ (7 : Int) < 2 ^ 31 ∧
      bC7.channels[0]? = some { domain := .physics, header := List.replicate 16 0,
                                transforms := [], metaRegion := [], outbox := [] }) ∧
    ((bC7.step 7 0).channels.length = bC7.channels.length ∧
      (bC7.step 7 0).channels[0]? = some
        { domain := .physics, header := (List.replicate 16 (0 : Int)).set 0 7,
          transforms := [], metaRegion := [],
          outbox := [{ version := WORKER_PROTOCOL_VERSION, domain := .physics,
                       payload := .step 0 7 }] }) := by
  have h := C7_worker_step bC7 7 0 (by norm_num) (by norm_num)
  refine ⟨⟨by norm_num, by norm_num, rfl⟩, h.1, ?_⟩
  have h2 := h.2 0 { domain := .physics, header := List.replicate 16 0,
                     transforms := [], metaRegion := [], outbox := [] } rfl
  simpa using h2

theorem chunk_find?_map_self {ac : List ((Int × Int) × ChunkState)} {c : Int × Int}
    {q : (Int × Int) × ChunkState} (h : ac.find? (fun p => p.1 == c) = some q)
    (g : ChunkState → ChunkState) :
    (ac.map (fun p => if p.1 == c then (c, g p.2) else p)).find? (fun p => p.1 == c) =
      some (c, g q.2) := by
  induction ac with
  | nil => cases h
  | cons a l ih =>
    rw [List.find?_cons] at h
    by_cases ha : a.1 = c
    · have hb : (a.1 == c) = true := by simp [ha]
      simp only [hb] at h
      cases h
      simp only [List.map_cons, hb, if_true, List.find?_cons]
      have hb2 : (((c, g q.2) : (Int × Int) × ChunkState).1 == c) = true := by simp
      simp only [hb2]
    · have hb : (a.1 == c) = false := by simp [ha]
      simp only [hb, Bool.false_eq_true] at h
      simp only [List.map_cons, hb, Bool.false_eq_true, if_false, List.find?_cons]
      exact ih h

theorem chunk_find?_map_ne {ac : List ((Int × Int) × ChunkState)} {c k : Int × Int}
    (h : k ≠ c) (g : ChunkState → ChunkState) :
    (ac.map (fun p => if p.1 == c then (c, g p.2) else p)).find? (fun p => p.1 == k) =
      ac.find? (fun p => p.1 == k) := by
  induction ac with
  | nil => rfl
  | cons a l ih =>
    by_cases ha : a.1 = c
    · have hb : (a.1 == c) = true := by simp [ha]
      have h1 : ((c, g a.2).1 == k) = false := by simp [Ne.symm h]
      have h2 : (a.1 == k) = false := by simp [ha, Ne.symm h]
      simp only [List.map_cons, hb, if_true, List.find?_cons, h1, h2]
      exact ih
    · have hb : (a.1 == c) = false := by simp [ha]
      simp only [List.map_cons, hb, Bool.false_eq_true, if_false, List.find?_cons]
      cases hc : (a.1 == k) <;> simp only [hc]
      exact ih

theorem lookup_touch_self {focus : Int × Int} {ac : List ((Int × Int) × ChunkState)}
    {c : Int × Int} {st : ChunkState} (h : lookupChunk ac c = some st) :
    lookupChunk (touchChunk focus ac c) c =
      some { st with distance := chebDist c focus, priority := computePriority (chebDist c focus), loaded := true } := by
  unfold lookupChunk at h
  obtain ⟨q, hq, hqs⟩ := Option.map_eq_some'.mp h
  have hmem : ac.any (fun p => p.1 == c) = true :=
    List.any_eq_true.mpr ⟨q, List.mem_of_find?_eq_some hq, by
      have := List.find?_some hq
      simpa using this⟩
  unfold touchChunk lookupChunk
  simp only []
  rw [if_pos hmem]
  rw [chunk_find?_map_self hq
    (fun stq => { stq with distance := chebDist c focus, priority := computePriority (chebDist c focus), loaded := true })]
  simp only [Option.map_some']
  rw [hqs]

theorem lookup_touch_ne {focus : Int × Int} {ac : List ((Int × Int) × ChunkState)}
    {c k : Int × Int} (h : k ≠ c) :
    lookupChunk (touchChunk focus ac c) k = lookupChunk ac k := by
  unfold touchChunk lookupChunk
  simp only []
  by_cases hmem : ac.any (fun p => p.1 == c) = true
  · rw [if_pos hmem]
    rw [chunk_find?_map_ne h
      (fun stq => { stq with distance := chebDist c focus, priority := computePriority (chebDist c focus), loaded := true })]
  · rw [if_neg hmem, List.find?_append]
    have hb : (c == k) = false := by simp [Ne.symm h]
    cases hE : ac.find? (fun p => p.1 == k) <;> simp [List.find?_cons, hb]

theorem foldl_touch_preserve {focus k : Int × Int} {cx cy : Int}
    (coords : List (Int × Int)) (ac : List ((Int × Int) × ChunkState))
    (h : ∃ st', lookupChunk ac k = some st' ∧ st'.loaded = true ∧
      st'.cx = cx ∧ st'.cy = cy) :
    ∃ st', lookupChunk (coords.foldl (touchChunk focus) ac) k = some st' ∧
      st'.loaded = true ∧ st'.cx = cx ∧ st'.cy = cy := by
  induction coords generalizing ac with
  | nil => exact h
  | cons c rest ih =>
    apply ih
    obtain ⟨st', hlk, hld, hcx, hcy⟩ := h
    by_cases hkc : k = c
    · subst hkc
      exact ⟨_, lookup_touch_self hlk, rfl, hcx, hcy⟩
    · exact ⟨st', by rw [lookup_touch_ne hkc]; exact hlk, hld, hcx, hcy⟩

theorem find?_filter_of_some {α : Type _} {p q : α → Bool} {l : List α} {x : α}
    (h : l.find? p = some x) (hq : q x = true) :
    (l.filter q).find? p = some x := by
  induction l with
  | nil => cases h
  | cons a l ih =>
    rw [List.find?_cons] at h
    by_cases hpa : p a = true
    · simp only [hpa] at h
      have hax : a = x := Option.some_inj.mp h
      subst hax
      rw [List.filter_cons, if_pos hq, List.find?_cons]
      simp only [hpa]
    · have hpa' : p a = false := by simpa using hpa
      simp only [hpa', Bool.false_eq_true] at h
      rw [List.filter_cons]
      by_cases hqa : q a = true
      · rw [if_pos hqa, List.find?_cons]
        simp only [hpa']
        exact ih h
      · rw [if_neg hqa]
        exact ih h

/-- C9: a chunk that is in the active set and loaded, whose Chebyshev
distance `d` from the new focus chunk satisfies
`enterRadius < d ≤ exitRadius`, is still in the active set and loaded after
`updateFocus` — the load loop only touches chunks within the enter radius,
and the unload loop only evicts chunks beyond the exit radius. -/
theorem C9_chunk_hysteresis (m : ChunkStreamingManager) (pos : ℚ × ℚ) (k : Int × Int)
    (st : ChunkState) (hlk : lookupChunk m.activeChunks k = some st)
    (hloaded : st.loaded = true)
    (henter : m.enterRadiusChunks < chebDist (st.cx, st.cy) (worldToChunk m pos))
    (hexit : chebDist (st.cx, st.cy) (worldToChunk m pos) ≤ m.exitRadiusChunks) :
    ∃ st', lookupChunk ((m.updateFocus pos).1).activeChunks k = some st' ∧
      st'.loaded = true ∧ st'.cx = st.cx ∧ st'.cy = st.cy := by
  unfold ChunkStreamingManager.updateFocus
  simp only []
  obtain ⟨st', hlk1, hld1, hcx1, hcy1⟩ := @foldl_touch_preserve (worldToChunk m pos) k
    st.cx st.cy
    (squareCoords (worldToChunk m pos) m.enterRadiusChunks) m.activeChunks
    ⟨st, hlk, hloaded, rfl, rfl⟩
  refine ⟨st', ?_, hld1, hcx1, hcy1⟩
  unfold lookupChunk at hlk1 ⊢
  obtain ⟨q, hq, hqs⟩ := Option.map_eq_some'.mp hlk1
  rw [find?_filter_of_some hq (by
    rw [hqs, hcx1, hcy1]
    simpa using hexit)]
  simp only [Option.map_some']
  rw [hqs]

def mC9 : ChunkStreamingManager :=
  { chunkSizeMeters := 100, enterRadiusChunks := 1, exitRadiusChunks := 3,
    activeChunks := [((2, 0), { cx := 2, cy := 0, priority := .medium, distance := 2,
                                loaded := true })] }

theorem C9_witness :
    (lookupChunk mC9.activeChunks (2, 0) = some
        { cx := 2, cy := 0, priority := .medium, distance := 2, loaded := true } ∧
      mC9.enterRadiusChunks < chebDist (2, 0) (worldToChunk mC9 (0, 0)) ∧
      chebDist (2, 0) (worldToChunk mC9 (0, 0)) ≤ mC9.exitRadiusChunks) ∧
    (∃ st', lookupChunk ((mC9.updateFocus (0, 0)).1).activeChunks (2, 0) = some st' ∧
      st'.loaded = true ∧ st'.cx = 2 ∧ st'.cy = 0) := by
  have hfocus : worldToChunk mC9 (0, 0) = (0, 0) := by
    unfold worldToChunk mC9
    norm_num
  have hd : chebDist (2, 0) (0, 0) = 2 := by decide
  refine ⟨⟨by decide, ?_, ?_⟩, ?_⟩
  · rw [hfocus, hd]
    decide
  · rw [hfocus, hd]
    decide
  · have h := C9_chunk_hysteresis mC9 (0, 0) (2, 0)
      { cx := 2, cy := 0, priority := .medium, distance := 2, loaded := true }
      (by decide) (by decide) (by rw [hfocus]; decide) (by rw [hfocus]; decide)
    simpa using h
